import Mathlib

set_option linter.all false

namespace RL

/- JSON values as produced and consumed by JSON.stringify and JSON.parse in
   serializeParams and unserializeParams (src/resource-library.js, lines 579-610).
   Numbers are modelled as integers: every numeric value the component stores in
   its query parameters (per_page, pagenum, ver, taxonomy term ids) is an
   integer.  Objects and arrays are mutual inductives so that mutual recursion
   and induction are available. -/

mutual

inductive JVal : Type where
  | jnull : JVal
  | jbool : Bool → JVal
  | jnum : Int → JVal
  | jstr : String → JVal
  | jarr : JArr → JVal
  | jobj : JObj → JVal

inductive JArr : Type where
  | nil : JArr
  | cons : JVal → JArr → JArr

inductive JObj : Type where
  | nil : JObj
  | cons : String → JVal → JObj → JObj

end

deriving instance DecidableEq for JVal

/- JavaScript truthiness of a JSON value, as tested by the filter
   `!!params[k]` in serializeParams.  Arrays and objects are always truthy in
   JavaScript, including empty ones. -/
def jsTruthy : JVal → Bool
  | .jnull => false
  | .jbool b => b
  | .jnum n => n != 0
  | .jstr s => s != ""
  | .jarr _ => true
  | .jobj _ => true

/- Characters and digits. -/

def digitChar (n : Nat) : Char := Char.ofNat (48 + n)

def hexDigitUpper (n : Nat) : Char :=
  if n < 10 then Char.ofNat (48 + n) else Char.ofNat (55 + n)

def hexDigitLower (n : Nat) : Char :=
  if n < 10 then Char.ofNat (48 + n) else Char.ofNat (87 + n)

def hexVal (c : Char) : Option Nat :=
  if 48 ≤ c.toNat ∧ c.toNat ≤ 57 then some (c.toNat - 48)
  else if 65 ≤ c.toNat ∧ c.toNat ≤ 70 then some (c.toNat - 55)
  else if 97 ≤ c.toNat ∧ c.toNat ≤ 102 then some (c.toNat - 87)
  else none

/- Decimal digits of a natural number, most significant first: the digits
   JSON.stringify prints for a non-negative integer. -/
def natChars (n : Nat) : List Char :=
  if h : n < 10 then [digitChar n] else natChars (n / 10) ++ [digitChar (n % 10)]
termination_by n
decreasing_by exact Nat.div_lt_self (by omega) (by omega)

def intChars (n : Int) : List Char :=
  if n < 0 then '-' :: natChars n.natAbs else natChars n.natAbs

/- String.prototype.split with a single-character separator, on character
   lists: "".split(sep) is [""], and the result is never the empty list. -/
def jsSplit (sep : Char) : List Char → List (List Char)
  | [] => [[]]
  | c :: tl =>
    if c = sep then [] :: jsSplit sep tl
    else
      match jsSplit sep tl with
      | h :: t => (c :: h) :: t
      | [] => [[c]]

/- Array.prototype.join with a single-character separator. -/
def joinSep (sep : Char) : List (List Char) → List Char
  | [] => []
  | [s] => s
  | s :: tl => s ++ sep :: joinSep sep tl

/- The characters encodeURIComponent leaves unescaped: ASCII letters, digits,
   and the marks - _ . ! ~ * ' ( ). -/
def uriUnreserved (c : Char) : Bool :=
  (65 ≤ c.toNat && c.toNat ≤ 90) || (97 ≤ c.toNat && c.toNat ≤ 122) ||
  (48 ≤ c.toNat && c.toNat ≤ 57) ||
  c = '-' || c = '_' || c = '.' || c = '!' || c = '~' || c = '*' ||
  c = '\'' || c = '(' || c = ')'

/- UTF-8 bytes of a character. -/
def utf8Bytes (c : Char) : List Nat :=
  let n := c.toNat
  if n < 128 then [n]
  else if n < 2048 then [192 + n / 64, 128 + n % 64]
  else if n < 65536 then [224 + n / 4096, 128 + (n / 64) % 64, 128 + n % 64]
  else [240 + n / 262144, 128 + (n / 4096) % 64, 128 + (n / 64) % 64, 128 + n % 64]

def pctByte (b : Nat) : List Char := ['%', hexDigitUpper (b / 16), hexDigitUpper (b % 16)]

/- encodeURIComponent on a character list: unreserved characters pass through,
   everything else is percent-encoded byte by byte (uppercase hex). -/
def encodeURIComponent : List Char → List Char
  | [] => []
  | c :: tl =>
    (if uriUnreserved c then [c] else ((utf8Bytes c).map pctByte).join) ++ encodeURIComponent tl

def hex2 (h1 h2 : Char) : Option Nat := do
  let a ← hexVal h1
  let b ← hexVal h2
  pure (16 * a + b)

def isSurrogate (n : Nat) : Bool := 55296 ≤ n && n < 57344

/- Read n percent-escaped UTF-8 continuation bytes (each in 128..191). -/
def readPctBytes : Nat → List Char → Option (List Nat × List Char)
  | 0, l => some ([], l)
  | n + 1, l =>
    match l with
    | '%' :: h1 :: h2 :: tl =>
      match hex2 h1 h2 with
      | none => none
      | some b =>
        if 128 ≤ b ∧ b < 192 then (readPctBytes n tl).map (fun p => (b :: p.1, p.2))
        else none
    | _ => none

theorem readPctBytes_length {n : Nat} {l : List Char} {p : List Nat × List Char}
    (h : readPctBytes n l = some p) : p.2.length ≤ l.length := by
  induction n generalizing l p with
  | zero =>
    simp only [readPctBytes, Option.some.injEq] at h
    subst h
    simp
  | succ n ih =>
    unfold readPctBytes at h
    split at h
    case _ h1 h2 tl =>
      split at h
      case _ => exact absurd h (by simp)
      case _ b hb =>
        split at h
        · cases hr : readPctBytes n tl with
          | none => rw [hr] at h; exact absurd h (by simp)
          | some q =>
            rw [hr] at h
            simp only [Option.map_some', Option.some.injEq] at h
            have hq := ih hr
            subst h
            simp only [List.length_cons]
            omega
        · exact absurd h (by simp)
    case _ => exact absurd h (by simp)

/- Decode one percent-escaped UTF-8 byte group (the characters after the
   first '%'): read the lead byte, read the continuation bytes the lead byte
   calls for, validate the code point, and return the decoded character and
   the remaining input. -/
def decodePct (tl : List Char) : Option (Char × List Char) :=
  match tl with
  | h1 :: h2 :: tl2 =>
    match hex2 h1 h2 with
    | none => none
    | some b0 =>
      if b0 < 128 then some (Char.ofNat b0, tl2)
      else if b0 < 192 then none
      else
        let info : Option (Nat × Nat × Nat) :=
          if b0 < 224 then some (1, b0 - 192, 128)
          else if b0 < 240 then some (2, b0 - 224, 2048)
          else if b0 < 248 then some (3, b0 - 240, 65536)
          else none
        match info with
        | none => none
        | some i =>
          match readPctBytes i.1 tl2 with
          | none => none
          | some p =>
            let cp := p.1.foldl (fun a b => a * 64 + (b - 128)) i.2.1
            if i.2.2 ≤ cp ∧ ¬ isSurrogate cp ∧ cp < 1114112 then some (Char.ofNat cp, p.2)
            else none
  | _ => none

theorem decodePct_length {tl : List Char} {p : Char × List Char} (h : decodePct tl = some p) :
    p.2.length < tl.length + 1 := by
  unfold decodePct at h
  split at h
  case _ h1 h2 tl2 =>
    split at h
    case _ => exact absurd h (by simp)
    case _ b0 hb0 =>
      split at h
      case _ =>
        simp only [Option.some.injEq] at h
        subst h
        simp only [List.length_cons]
        omega
      case _ =>
        split at h
        case _ => exact absurd h (by simp)
        case _ =>
          simp only [] at h
          split at h
          case _ => exact absurd h (by simp)
          case _ i hi =>
            split at h
            case _ => exact absurd h (by simp)
            case _ q hq =>
              split at h
              case _ =>
                simp only [Option.some.injEq] at h
                subst h
                have := readPctBytes_length hq
                simp only [List.length_cons]
                omega
              case _ => exact absurd h (by simp)
  case _ => exact absurd h (by simp)

/- decodeURIComponent on a character list: a '%' starts a percent-escaped
   UTF-8 byte group, every other character passes through.  A malformed escape
   or invalid byte sequence gives none (the thrown URIError). -/
def decodeURIComponent : List Char → Option (List Char)
  | [] => some []
  | c :: tl =>
    if c = '%' then
      match h : decodePct tl with
      | some p => (decodeURIComponent p.2).map (fun r => p.1 :: r)
      | none => none
    else (decodeURIComponent tl).map (fun r => c :: r)
termination_by l => l.length
decreasing_by
  · simpa using decodePct_length h
  · simp only [List.length_cons]; omega

/- The escape JSON.stringify applies to one string character. -/
def escChar (c : Char) : List Char :=
  if c = '"' then ['\\', '"']
  else if c = '\\' then ['\\', '\\']
  else if c.toNat = 8 then ['\\', 'b']
  else if c.toNat = 9 then ['\\', 't']
  else if c.toNat = 10 then ['\\', 'n']
  else if c.toNat = 12 then ['\\', 'f']
  else if c.toNat = 13 then ['\\', 'r']
  else if c.toNat < 32 then
    ['\\', 'u', '0', '0', hexDigitLower (c.toNat / 16), hexDigitLower (c.toNat % 16)]
  else [c]

def printJStr (s : List Char) : List Char := '"' :: (s.map escChar).join ++ ['"']

mutual

/- JSON.stringify of a JSON value, as a character list. -/
def jsonStringify : JVal → List Char
  | .jnull => ['n', 'u', 'l', 'l']
  | .jbool true => ['t', 'r', 'u', 'e']
  | .jbool false => ['f', 'a', 'l', 's', 'e']
  | .jnum n => intChars n
  | .jstr s => printJStr s.data
  | .jarr xs => '[' :: printElems xs ++ [']']
  | .jobj ms => '\x7b' :: printMembers ms ++ ['\x7d']

def printElems : JArr → List Char
  | .nil => []
  | .cons v .nil => jsonStringify v
  | .cons v tl => jsonStringify v ++ ',' :: printElems tl

def printMembers : JObj → List Char
  | .nil => []
  | .cons k v .nil => printJStr k.data ++ ':' :: jsonStringify v
  | .cons k v tl => printJStr k.data ++ ':' :: jsonStringify v ++ ',' :: printMembers tl

end

mutual

def jsize : JVal → Nat
  | .jnull => 1
  | .jbool _ => 1
  | .jnum _ => 1
  | .jstr _ => 1
  | .jarr xs => 1 + esize xs
  | .jobj ms => 1 + msize ms

def esize : JArr → Nat
  | .nil => 0
  | .cons v tl => 1 + jsize v + esize tl

def msize : JObj → Nat
  | .nil => 0
  | .cons _ v tl => 1 + jsize v + msize tl

end

def isJsonWs (c : Char) : Bool :=
  c.toNat = 32 || c.toNat = 9 || c.toNat = 10 || c.toNat = 13

def skipWs (l : List Char) : List Char := l.dropWhile isJsonWs

def isDigitChar (c : Char) : Bool := 48 ≤ c.toNat && c.toNat ≤ 57

def digitsToNat (ds : List Char) : Nat := ds.foldl (fun a c => 10 * a + (c.toNat - 48)) 0

/- Parse a JSON integer literal (digits, no leading zero unless the literal is
   exactly "0").  A following '.', 'e' or 'E' would start a fraction or
   exponent, i.e. a non-integer JSON number, which is outside this model. -/
def pNat (l : List Char) : Option (Nat × List Char) :=
  let ds := l.takeWhile isDigitChar
  let rest := l.dropWhile isDigitChar
  if ds = [] then none
  else if 2 ≤ ds.length ∧ ds.head? = some '0' then none
  else
    match rest with
    | c :: _ => if c = '.' ∨ c = 'e' ∨ c = 'E' then none else some (digitsToNat ds, rest)
    | [] => some (digitsToNat ds, rest)

/- Decode one JSON string escape (the characters after a backslash): the named
   escapes and \uXXXX.  A \uXXXX escape denoting a surrogate half is outside
   this model (the printer never emits one and JSON.parse would pair it). -/
def unescape (tl : List Char) : Option (Char × List Char) :=
  match tl with
  | [] => none
  | e :: tl2 =>
    if e = '"' then some ('"', tl2)
    else if e = '\\' then some ('\\', tl2)
    else if e = '/' then some ('/', tl2)
    else if e = 'b' then some (Char.ofNat 8, tl2)
    else if e = 'f' then some (Char.ofNat 12, tl2)
    else if e = 'n' then some (Char.ofNat 10, tl2)
    else if e = 'r' then some (Char.ofNat 13, tl2)
    else if e = 't' then some (Char.ofNat 9, tl2)
    else if e = 'u' then
      match tl2 with
      | d1 :: d2 :: d3 :: d4 :: tl3 =>
        match hexVal d1, hexVal d2, hexVal d3, hexVal d4 with
        | some a, some b, some cc, some d =>
          let cp := 4096 * a + 256 * b + 16 * cc + d
          if isSurrogate cp then none else some (Char.ofNat cp, tl3)
        | _, _, _, _ => none
      | _ => none
    else none

theorem unescape_length {tl : List Char} {p : Char × List Char} (h : unescape tl = some p) :
    p.2.length < tl.length := by
  unfold unescape at h
  split at h
  case _ => exact absurd h (by simp)
  case _ e tl2 =>
    split at h
    case isTrue =>
      simp only [Option.some.injEq] at h
      subst h
      simp
    case isFalse =>
      split at h
      case isTrue =>
        simp only [Option.some.injEq] at h
        subst h
        simp
      case isFalse =>
        split at h
        case isTrue =>
          simp only [Option.some.injEq] at h
          subst h
          simp
        case isFalse =>
          split at h
          case isTrue =>
            simp only [Option.some.injEq] at h
            subst h
            simp
          case isFalse =>
            split at h
            case isTrue =>
              simp only [Option.some.injEq] at h
              subst h
              simp
            case isFalse =>
              split at h
              case isTrue =>
                simp only [Option.some.injEq] at h
                subst h
                simp
              case isFalse =>
                split at h
                case isTrue =>
                  simp only [Option.some.injEq] at h
                  subst h
                  simp
                case isFalse =>
                  split at h
                  case isTrue =>
                    simp only [Option.some.injEq] at h
                    subst h
                    simp
                  case isFalse =>
                    split at h
                    case isFalse => exact absurd h (by simp)
                    case isTrue =>
                      split at h
                      case _ d1 d2 d3 d4 tl3 =>
                        split at h
                        case _ =>
                          simp only [] at h
                          split at h
                          case isTrue => exact absurd h (by simp)
                          case isFalse =>
                            simp only [Option.some.injEq] at h
                            subst h
                            simp only [List.length_cons]
                            omega
                        all_goals exact absurd h (by simp)
                      case _ => exact absurd h (by simp)

/- Parse a JSON string body after the opening quote, returning the string
   characters and the rest after the closing quote.  Unescaped control
   characters are rejected, as JSON.parse does. -/
def pStrBody : List Char → Option (List Char × List Char)
  | [] => none
  | c :: tl =>
    if c = '"' then some ([], tl)
    else if c = '\\' then
      match h : unescape tl with
      | some p => (pStrBody p.2).map (fun q => (p.1 :: q.1, q.2))
      | none => none
    else if c.toNat < 32 then none
    else (pStrBody tl).map (fun q => (c :: q.1, q.2))
termination_by l => l.length
decreasing_by
  · have := unescape_length h
    simp only [List.length_cons]
    omega
  · simp only [List.length_cons]
    omega

def headIs (c : Char) : List Char → Bool
  | [] => false
  | x :: _ => x = c

def expectChars : List Char → List Char → Option (List Char)
  | [], l => some l
  | p :: ps, c :: tl => if c = p then expectChars ps tl else none
  | _ :: _, [] => none

mutual

/- Parse one JSON value (fuel-indexed recursive descent). -/
def pVal : Nat → List Char → Option (JVal × List Char)
  | 0, _ => none
  | fuel + 1, l =>
    match skipWs l with
    | [] => none
    | c :: r =>
      if c = 'n' then (expectChars (['u', 'l', 'l']) r).map (fun r2 => (.jnull, r2))
      else if c = 't' then (expectChars (['r', 'u', 'e']) r).map (fun r2 => (.jbool true, r2))
      else if c = 'f' then
        (expectChars (['a', 'l', 's', 'e']) r).map (fun r2 => (.jbool false, r2))
      else if c = '"' then (pStrBody r).map (fun p => (.jstr (String.mk p.1), p.2))
      else if c = '[' then
        if headIs (']') (skipWs r) then some (.jarr .nil, (skipWs r).drop 1)
        else (pElems fuel r).map (fun p => (.jarr p.1, p.2))
      else if c = '\x7b' then
        if headIs ('\x7d') (skipWs r) then some (.jobj .nil, (skipWs r).drop 1)
        else (pMembers fuel r).map (fun p => (.jobj p.1, p.2))
      else if c = '-' then (pNat r).map (fun p => (.jnum (-(p.1 : Int)), p.2))
      else if isDigitChar c then (pNat (c :: r)).map (fun p => (.jnum (p.1 : Int), p.2))
      else none

/- Parse the elements of a non-empty JSON array, consuming the closing
   bracket. -/
def pElems : Nat → List Char → Option (JArr × List Char)
  | 0, _ => none
  | fuel + 1, l => do
    let p ← pVal fuel l
    let s := skipWs p.2
    if headIs (',') s then do
      let q ← pElems fuel (s.drop 1)
      pure (.cons p.1 q.1, q.2)
    else if headIs (']') s then pure (.cons p.1 .nil, s.drop 1)
    else none

/- Parse the members of a non-empty JSON object, consuming the closing
   brace. -/
def pMembers : Nat → List Char → Option (JObj × List Char)
  | 0, _ => none
  | fuel + 1, l =>
    let s := skipWs l
    if headIs ('"') s then do
      let kp ← pStrBody (s.drop 1)
      let s2 := skipWs kp.2
      if headIs (':') s2 then do
        let vp ← pVal fuel (s2.drop 1)
        let s3 := skipWs vp.2
        if headIs (',') s3 then do
          let mp ← pMembers fuel (s3.drop 1)
          pure (.cons (String.mk kp.1) vp.1 mp.1, mp.2)
        else if headIs ('\x7d') s3 then pure (.cons (String.mk kp.1) vp.1 .nil, s3.drop 1)
        else none
      else none
    else none

end

/- JSON.parse: parse one value and require only whitespace to remain; none is
   a thrown SyntaxError. -/
def jsonParse (l : List Char) : Option JVal := do
  let p ← pVal (l.length + 1) l
  if skipWs p.2 = [] then pure p.1 else none

/- ParamSerializer: serializeParams and unserializeParams
   (src/resource-library.js lines 579-610).  A params object is an
   insertion-ordered list of key-value pairs. -/

/- serializeParams: keep the keys whose values are truthy, emit
   encodeURIComponent(key) = encodeURIComponent(JSON.stringify(value)) for
   each, and join the pieces with ampersands. -/
def serializeParams (params : List (String × JVal)) : List Char :=
  joinSep ('&')
    ((params.filter (fun kv => jsTruthy kv.2)).map
      (fun kv => encodeURIComponent kv.1.data ++ '=' :: encodeURIComponent (jsonStringify kv.2)))

/- JavaScript object assignment obj[k] = v: replace the value in place when
   the key is present, append the pair otherwise. -/
def objSet (obj : List (String × JVal)) (k : String) (v : JVal) : List (String × JVal) :=
  match obj with
  | [] => [(k, v)]
  | kv :: tl => if kv.1 = k then (kv.1, v) :: tl else kv :: objSet tl k v

/- One step of unserializeParams: from the parts of one item (already split on
   '='), perform params[decodeURIComponent(val[0])] =
   JSON.parse(decodeURIComponent(val[1])).  An item without a second part has
   val[1] === undefined, and JSON.parse('undefined') throws: none. -/
def unserializeStep (params : List (String × JVal)) (val : List (List Char)) :
    Option (List (String × JVal)) :=
  match val with
  | k :: v :: _ => do
    let kd ← decodeURIComponent k
    let vd ← decodeURIComponent v
    let jv ← jsonParse vd
    pure (objSet params (String.mk kd) jv)
  | _ => none

/- unserializeParams: drop the first character (substring(1)), split on '&',
   split each item on '=', then assign each decoded key-value pair into an
   initially empty object, in order.  A malformed item (missing '=' part, bad
   percent escape, bad JSON) throws, aborting the whole operation: none. -/
def unserializeParams (param_string : List Char) : Option (List (String × JVal)) :=
  ((jsSplit ('&') (param_string.drop 1)).map (jsSplit ('='))).foldlM unserializeStep []

/- Lemmas: decodeURIComponent inverts encodeURIComponent. -/

theorem char_toNat_lt (c : Char) : c.toNat < 1114112 := by
  have he : c.toNat = c.val.toNat := rfl
  rcases c.valid with h | h
  · omega
  · have := h.2
    omega

theorem char_not_surrogate (c : Char) : isSurrogate c.toNat = false := by
  have he : c.toNat = c.val.toNat := rfl
  simp only [isSurrogate]
  rcases c.valid with h | h
  · simp only [Bool.and_eq_false_iff, decide_eq_false_iff_not, not_le, not_lt]
    omega
  · have := h.1
    simp only [Bool.and_eq_false_iff, decide_eq_false_iff_not, not_le, not_lt]
    omega

theorem hexVal_hexDigitUpper : ∀ n, n < 16 → hexVal (hexDigitUpper n) = some n := by decide

set_option maxRecDepth 4000 in
theorem hex2_bytes :
    ∀ b, b < 256 → hex2 (hexDigitUpper (b / 16)) (hexDigitUpper (b % 16)) = some b := by decide

theorem decodeURIComponent_pct (tl out : List Char) (p : Char × List Char)
    (hdec : decodePct tl = some p) (hrec : decodeURIComponent p.2 = some out) :
    decodeURIComponent ('%' :: tl) = some (p.1 :: out) := by
  rw [decodeURIComponent]
  rw [if_pos rfl]
  split
  case _ q heq =>
    rw [hdec] at heq
    cases heq
    rw [hrec]
    rfl
  case _ heq => rw [hdec] at heq; cases heq

theorem decodeURIComponent_lit (c : Char) (tl out : List Char) (hne : c ≠ '%')
    (hrec : decodeURIComponent tl = some out) :
    decodeURIComponent (c :: tl) = some (c :: out) := by
  rw [decodeURIComponent]
  rw [if_neg hne, hrec]
  rfl

theorem readPctBytes_step (x y : Char) (n : Nat) (l : List Char) :
    readPctBytes (n + 1) ('%' :: x :: y :: l)
      = match hex2 x y with
        | none => none
        | some b =>
          if 128 ≤ b ∧ b < 192 then (readPctBytes n l).map (fun p => (b :: p.1, p.2))
          else none := rfl

theorem readPctBytes_pct (b : Nat) (hb : 128 ≤ b ∧ b < 192) (n : Nat) (l : List Char) :
    readPctBytes (n + 1) (pctByte b ++ l) = (readPctBytes n l).map (fun p => (b :: p.1, p.2)) := by
  show readPctBytes (n + 1) ('%' :: hexDigitUpper (b / 16) :: hexDigitUpper (b % 16) :: l) = _
  rw [readPctBytes_step, hex2_bytes b (by omega)]
  dsimp only
  rw [if_pos hb]

theorem decodeURIComponent_encChar (c : Char) (rest out : List Char)
    (hrec : decodeURIComponent rest = some out) :
    decodeURIComponent
      ((if uriUnreserved c then [c] else ((utf8Bytes c).map pctByte).join) ++ rest)
      = some (c :: out) := by
  by_cases hu : uriUnreserved c
  · rw [if_pos hu]
    have hne : c ≠ '%' := by
      intro h
      rw [h] at hu
      exact absurd hu (by decide)
    simpa using decodeURIComponent_lit c rest out hne hrec
  · rw [if_neg hu]
    have hv := char_toNat_lt c
    have hs : isSurrogate c.toNat = false := char_not_surrogate c
    by_cases h1 : c.toNat < 128
    · have hbytes : utf8Bytes c = [c.toNat] := by
        unfold utf8Bytes
        rw [if_pos h1]
      rw [hbytes]
      simp only [List.map_cons, List.map_nil, List.flatten_cons, List.flatten_nil,
        List.append_nil, pctByte, List.cons_append, List.nil_append]
      have hdec :
          decodePct (hexDigitUpper (c.toNat / 16) :: hexDigitUpper (c.toNat % 16) :: rest)
            = some (Char.ofNat c.toNat, rest) := by
        simp only [decodePct]
        rw [hex2_bytes c.toNat (by omega)]
        dsimp only
        rw [if_pos h1]
      have := decodeURIComponent_pct _ out _ hdec hrec
      rw [this, Char.ofNat_toNat]
    · by_cases h2 : c.toNat < 2048
      · have hbytes : utf8Bytes c = [192 + c.toNat / 64, 128 + c.toNat % 64] := by
          unfold utf8Bytes
          rw [if_neg h1, if_pos h2]
        rw [hbytes]
        simp only [List.map_cons, List.map_nil, List.flatten_cons, List.flatten_nil,
          List.append_nil, pctByte, List.cons_append, List.nil_append]
        have hdec :
            decodePct (hexDigitUpper ((192 + c.toNat / 64) / 16)
              :: hexDigitUpper ((192 + c.toNat / 64) % 16)
              :: '%' :: hexDigitUpper ((128 + c.toNat % 64) / 16)
              :: hexDigitUpper ((128 + c.toNat % 64) % 16) :: rest)
              = some (Char.ofNat c.toNat, rest) := by
          simp only [decodePct]
          rw [hex2_bytes (192 + c.toNat / 64) (by omega)]
          dsimp only
          rw [if_neg (by omega), if_neg (by omega)]
          simp only [if_pos (show 192 + c.toNat / 64 < 224 by omega)]
          have hread := readPctBytes_pct (128 + c.toNat % 64) (by omega) 0 rest
          simp only [pctByte, List.cons_append, List.nil_append] at hread
          rw [hread]
          simp only [readPctBytes, Option.map_some', List.foldl]
          have hcp : (192 + c.toNat / 64 - 192) * 64 + (128 + c.toNat % 64 - 128) = c.toNat := by
            omega
          rw [hcp]
          rw [if_pos ⟨by omega, by rw [hs]; simp, by omega⟩]
        have := decodeURIComponent_pct _ out _ hdec hrec
        rw [this, Char.ofNat_toNat]
      · by_cases h3 : c.toNat < 65536
        · have hbytes : utf8Bytes c
              = [224 + c.toNat / 4096, 128 + (c.toNat / 64) % 64, 128 + c.toNat % 64] := by
            unfold utf8Bytes
            rw [if_neg h1, if_neg h2, if_pos h3]
          rw [hbytes]
          simp only [List.map_cons, List.map_nil, List.flatten_cons, List.flatten_nil,
            List.append_nil, pctByte, List.cons_append, List.nil_append]
          have hdec :
              decodePct (hexDigitUpper ((224 + c.toNat / 4096) / 16)
                :: hexDigitUpper ((224 + c.toNat / 4096) % 16)
                :: '%' :: hexDigitUpper ((128 + (c.toNat / 64) % 64) / 16)
                :: hexDigitUpper ((128 + (c.toNat / 64) % 64) % 16)
                :: '%' :: hexDigitUpper ((128 + c.toNat % 64) / 16)
                :: hexDigitUpper ((128 + c.toNat % 64) % 16) :: rest)
                = some (Char.ofNat c.toNat, rest) := by
            simp only [decodePct]
            rw [hex2_bytes (224 + c.toNat / 4096) (by omega)]
            dsimp only
            rw [if_neg (by omega), if_neg (by omega)]
            rw [if_neg (show ¬ 224 + c.toNat / 4096 < 224 by omega)]
            simp only [if_pos (show 224 + c.toNat / 4096 < 240 by omega)]
            have hr1 := readPctBytes_pct (128 + (c.toNat / 64) % 64) (by omega) 1
              ('%' :: hexDigitUpper ((128 + c.toNat % 64) / 16)
                :: hexDigitUpper ((128 + c.toNat % 64) % 16) :: rest)
            have hr2 := readPctBytes_pct (128 + c.toNat % 64) (by omega) 0 rest
            simp only [pctByte, List.cons_append, List.nil_append] at hr1 hr2
            rw [hr1, hr2]
            simp only [readPctBytes, Option.map_some', List.foldl]
            have hcp : ((224 + c.toNat / 4096 - 224) * 64 + (128 + (c.toNat / 64) % 64 - 128)) * 64
                + (128 + c.toNat % 64 - 128) = c.toNat := by
              omega
            rw [hcp]
            rw [if_pos ⟨by omega, by rw [hs]; simp, by omega⟩]
          have := decodeURIComponent_pct _ out _ hdec hrec
          rw [this, Char.ofNat_toNat]
        · have hbytes : utf8Bytes c
              = [240 + c.toNat / 262144, 128 + (c.toNat / 4096) % 64, 128 + (c.toNat / 64) % 64,
                 128 + c.toNat % 64] := by
            unfold utf8Bytes
            rw [if_neg h1, if_neg h2, if_neg h3]
          rw [hbytes]
          simp only [List.map_cons, List.map_nil, List.flatten_cons, List.flatten_nil,
            List.append_nil, pctByte, List.cons_append, List.nil_append]
          have hdec :
              decodePct (hexDigitUpper ((240 + c.toNat / 262144) / 16)
                :: hexDigitUpper ((240 + c.toNat / 262144) % 16)
                :: '%' :: hexDigitUpper ((128 + (c.toNat / 4096) % 64) / 16)
                :: hexDigitUpper ((128 + (c.toNat / 4096) % 64) % 16)
                :: '%' :: hexDigitUpper ((128 + (c.toNat / 64) % 64) / 16)
                :: hexDigitUpper ((128 + (c.toNat / 64) % 64) % 16)
                :: '%' :: hexDigitUpper ((128 + c.toNat % 64) / 16)
                :: hexDigitUpper ((128 + c.toNat % 64) % 16) :: rest)
                = some (Char.ofNat c.toNat, rest) := by
            simp only [decodePct]
            rw [hex2_bytes (240 + c.toNat / 262144) (by omega)]
            dsimp only
            rw [if_neg (by omega), if_neg (by omega)]
            rw [if_neg (show ¬ 240 + c.toNat / 262144 < 224 by omega)]
            rw [if_neg (show ¬ 240 + c.toNat / 262144 < 240 by omega)]
            simp only [if_pos (show 240 + c.toNat / 262144 < 248 by omega)]
            have hr1 := readPctBytes_pct (128 + (c.toNat / 4096) % 64) (by omega) 2
              ('%' :: hexDigitUpper ((128 + (c.toNat / 64) % 64) / 16)
                :: hexDigitUpper ((128 + (c.toNat / 64) % 64) % 16)
                :: '%' :: hexDigitUpper ((128 + c.toNat % 64) / 16)
                :: hexDigitUpper ((128 + c.toNat % 64) % 16) :: rest)
            have hr2 := readPctBytes_pct (128 + (c.toNat / 64) % 64) (by omega) 1
              ('%' :: hexDigitUpper ((128 + c.toNat % 64) / 16)
                :: hexDigitUpper ((128 + c.toNat % 64) % 16) :: rest)
            have hr3 := readPctBytes_pct (128 + c.toNat % 64) (by omega) 0 rest
            simp only [pctByte, List.cons_append, List.nil_append] at hr1 hr2 hr3
            rw [hr1, hr2, hr3]
            simp only [readPctBytes, Option.map_some', List.foldl]
            have hcp : (((240 + c.toNat / 262144 - 240) * 64 + (128 + (c.toNat / 4096) % 64 - 128))
                  * 64 + (128 + (c.toNat / 64) % 64 - 128)) * 64 + (128 + c.toNat % 64 - 128)
                = c.toNat := by
              omega
            rw [hcp]
            rw [if_pos ⟨by omega, by rw [hs]; simp, by omega⟩]
          have := decodeURIComponent_pct _ out _ hdec hrec
          rw [this, Char.ofNat_toNat]

theorem decodeURIComponent_encodeURIComponent (l : List Char) :
    decodeURIComponent (encodeURIComponent l) = some l := by
  induction l with
  | nil => simp [encodeURIComponent, decodeURIComponent]
  | cons c tl ih =>
    rw [encodeURIComponent]
    exact decodeURIComponent_encChar c (encodeURIComponent tl) tl ih




theorem digitChar_toNat : ∀ m, m < 10 → (digitChar m).toNat = 48 + m := by decide

theorem isDigitChar_digitChar : ∀ m, m < 10 → isDigitChar (digitChar m) = true := by decide

theorem digitChar_ne_zero : ∀ m, 1 ≤ m → m < 10 → digitChar m ≠ '0' := by decide

theorem natChars_digits (n : Nat) : ∀ c ∈ natChars n, isDigitChar c = true := by
  induction n using Nat.strong_induction_on with
  | _ n ih =>
    rw [natChars]
    split
    case _ h =>
      intro c hc
      simp only [List.mem_singleton] at hc
      subst hc
      exact isDigitChar_digitChar n h
    case _ h =>
      intro c hc
      rcases List.mem_append.mp hc with hc | hc
      · exact ih (n / 10) (Nat.div_lt_self (by omega) (by omega)) c hc
      · simp only [List.mem_singleton] at hc
        subst hc
        exact isDigitChar_digitChar _ (Nat.mod_lt _ (by omega))

theorem natChars_ne_nil (n : Nat) : natChars n ≠ [] := by
  rw [natChars]
  split
  · simp
  · simp

theorem digitsToNat_natChars (n : Nat) : digitsToNat (natChars n) = n := by
  induction n using Nat.strong_induction_on with
  | _ n ih =>
    rw [natChars]
    split
    case _ h =>
      simp only [digitsToNat, List.foldl]
      rw [digitChar_toNat n h]
      omega
    case _ h =>
      simp only [digitsToNat, List.foldl_append, List.foldl]
      have hd := ih (n / 10) (Nat.div_lt_self (by omega) (by omega))
      simp only [digitsToNat] at hd
      rw [hd, digitChar_toNat _ (Nat.mod_lt _ (by omega))]
      omega

theorem natChars_head_ne_zero (n : Nat) (hn : 1 ≤ n) :
    ∀ d, (natChars n).head? = some d → d ≠ '0' := by
  induction n using Nat.strong_induction_on with
  | _ n ih =>
    rw [natChars]
    split
    case _ h =>
      intro d hd
      simp only [List.head?_cons, Option.some.injEq] at hd
      subst hd
      exact digitChar_ne_zero n hn h
    case _ h =>
      intro d hd
      cases hc : natChars (n / 10) with
      | nil => exact absurd hc (natChars_ne_nil _)
      | cons a l' =>
        rw [hc] at hd
        simp only [List.cons_append, List.head?_cons, Option.some.injEq] at hd
        subst hd
        refine ih (n / 10) (Nat.div_lt_self (by omega) (by omega)) (by omega) a ?_
        rw [hc]
        rfl

theorem takeWhile_all_append (p : Char → Bool) (l1 l2 : List Char) (h : ∀ c ∈ l1, p c = true) :
    (l1 ++ l2).takeWhile p = l1 ++ l2.takeWhile p := by
  induction l1 with
  | nil => simp
  | cons a tl ih =>
    simp only [List.cons_append, List.takeWhile_cons]
    rw [h a (by simp)]
    simp only [if_true]
    rw [ih (fun c hc => h c (by simp [hc]))]

theorem dropWhile_all_append (p : Char → Bool) (l1 l2 : List Char) (h : ∀ c ∈ l1, p c = true) :
    (l1 ++ l2).dropWhile p = l2.dropWhile p := by
  induction l1 with
  | nil => simp
  | cons a tl ih =>
    simp only [List.cons_append, List.dropWhile_cons]
    rw [h a (by simp)]
    simp only [if_true]
    exact ih (fun c hc => h c (by simp [hc]))

/- The character that may legally follow a printed JSON value inside a larger
   printed value: a separator, a closing bracket, or the end of input. -/
def restOk (r : List Char) : Prop :=
  match r with
  | [] => True
  | c :: _ => c = ',' ∨ c = ']' ∨ c = '\x7d'

theorem pNat_natChars (n : Nat) (rest : List Char) (hr : restOk rest) :
    pNat (natChars n ++ rest) = some (n, rest) := by
  unfold pNat
  rw [takeWhile_all_append _ _ _ (natChars_digits n)]
  rw [dropWhile_all_append _ _ _ (natChars_digits n)]
  have htw : rest.takeWhile isDigitChar = [] := by
    cases rest with
    | nil => rfl
    | cons c tl =>
      rcases hr with h | h | h <;> subst h <;> rfl
  have hdw : rest.dropWhile isDigitChar = rest := by
    cases rest with
    | nil => rfl
    | cons c tl =>
      rcases hr with h | h | h <;> subst h <;> rfl
  rw [htw, hdw, List.append_nil]
  rw [if_neg (by simpa using natChars_ne_nil n)]
  rw [if_neg ?hlz]
  case hlz =>
    rintro ⟨hlen, hhead⟩
    by_cases h : n < 10
    · rw [natChars, dif_pos h] at hlen
      simp at hlen
    · have hne := natChars_head_ne_zero n (by omega) '0'
      exact absurd (hhead) (by intro hc; exact hne hc rfl)
  cases rest with
  | nil => rw [digitsToNat_natChars]
  | cons c tl =>
    rcases hr with h | h | h <;> subst h <;>
      simp only [digitsToNat_natChars] <;>
      rw [if_neg (by decide)]




theorem hexVal_hexDigitLower : ∀ m, m < 16 → hexVal (hexDigitLower m) = some m := by decide

theorem pStrBody_quote (tl : List Char) : pStrBody ('"' :: tl) = some ([], tl) := by
  rw [pStrBody]
  rw [if_pos rfl]

theorem pStrBody_esc {tl : List Char} {p : Char × List Char} {q : List Char × List Char}
    (hun : unescape tl = some p) (hrec : pStrBody p.2 = some q) :
    pStrBody ('\\' :: tl) = some (p.1 :: q.1, q.2) := by
  rw [pStrBody]
  rw [if_neg (by decide), if_pos rfl]
  split
  case _ r heq =>
    rw [hun] at heq
    cases heq
    rw [hrec]
    rfl
  case _ heq => rw [hun] at heq; cases heq

theorem pStrBody_lit {c : Char} {tl : List Char} {q : List Char × List Char}
    (h1 : c ≠ '"') (h2 : c ≠ '\\') (h3 : ¬ c.toNat < 32) (hrec : pStrBody tl = some q) :
    pStrBody (c :: tl) = some (c :: q.1, q.2) := by
  rw [pStrBody]
  rw [if_neg h1, if_neg h2, if_neg h3, hrec]
  rfl

theorem unescape_quote (l : List Char) : unescape ('"' :: l) = some ('"', l) := rfl

theorem unescape_backslash (l : List Char) : unescape ('\\' :: l) = some ('\\', l) := rfl

theorem unescape_b (l : List Char) : unescape ('b' :: l) = some (Char.ofNat 8, l) := rfl

theorem unescape_f (l : List Char) : unescape ('f' :: l) = some (Char.ofNat 12, l) := rfl

theorem unescape_n (l : List Char) : unescape ('n' :: l) = some (Char.ofNat 10, l) := rfl

theorem unescape_r (l : List Char) : unescape ('r' :: l) = some (Char.ofNat 13, l) := rfl

theorem unescape_t (l : List Char) : unescape ('t' :: l) = some (Char.ofNat 9, l) := rfl

theorem pStrBody_print (s rest : List Char) :
    pStrBody ((s.map escChar).join ++ '"' :: rest) = some (s, rest) := by
  induction s with
  | nil => simpa using pStrBody_quote rest
  | cons c tl ih =>
    simp only [List.map_cons, List.flatten_cons, List.append_assoc]
    by_cases h1 : c = '"'
    · subst h1
      rw [show escChar '"' = ['\\', '"'] from rfl]
      rw [show (['\\', '"'] : List Char) ++ ((tl.map escChar).flatten ++ '"' :: rest)
          = '\\' :: '"' :: ((tl.map escChar).flatten ++ '"' :: rest) from rfl]
      rw [pStrBody_esc (unescape_quote _) ih]
    · by_cases h2 : c = '\\'
      · subst h2
        rw [show escChar '\\' = ['\\', '\\'] from rfl]
        rw [show (['\\', '\\'] : List Char) ++ ((tl.map escChar).flatten ++ '"' :: rest)
            = '\\' :: '\\' :: ((tl.map escChar).flatten ++ '"' :: rest) from rfl]
        rw [pStrBody_esc (unescape_backslash _) ih]
      · by_cases h3 : c.toNat < 32
        · have hox : Char.ofNat c.toNat = c := Char.ofNat_toNat c
          by_cases hb : c.toNat = 8
          · have hesc : escChar c = ['\\', 'b'] := by
              unfold escChar
              rw [if_neg h1, if_neg h2, if_pos hb]
            rw [hesc]
            rw [show (['\\', 'b'] : List Char) ++ ((tl.map escChar).flatten ++ '"' :: rest)
                = '\\' :: 'b' :: ((tl.map escChar).flatten ++ '"' :: rest) from rfl]
            rw [pStrBody_esc (unescape_b _) ih]
            rw [← hb, hox]
          · by_cases ht : c.toNat = 9
            · have hesc : escChar c = ['\\', 't'] := by
                unfold escChar
                rw [if_neg h1, if_neg h2, if_neg hb, if_pos ht]
              rw [hesc]
              rw [show (['\\', 't'] : List Char) ++ ((tl.map escChar).flatten ++ '"' :: rest)
                  = '\\' :: 't' :: ((tl.map escChar).flatten ++ '"' :: rest) from rfl]
              rw [pStrBody_esc (unescape_t _) ih]
              rw [← ht, hox]
            · by_cases hn : c.toNat = 10
              · have hesc : escChar c = ['\\', 'n'] := by
                  unfold escChar
                  rw [if_neg h1, if_neg h2, if_neg hb, if_neg ht, if_pos hn]
                rw [hesc]
                rw [show (['\\', 'n'] : List Char) ++ ((tl.map escChar).flatten ++ '"' :: rest)
                    = '\\' :: 'n' :: ((tl.map escChar).flatten ++ '"' :: rest) from rfl]
                rw [pStrBody_esc (unescape_n _) ih]
                rw [← hn, hox]
              · by_cases hf : c.toNat = 12
                · have hesc : escChar c = ['\\', 'f'] := by
                    unfold escChar
                    rw [if_neg h1, if_neg h2, if_neg hb, if_neg ht, if_neg hn, if_pos hf]
                  rw [hesc]
                  rw [show (['\\', 'f'] : List Char) ++ ((tl.map escChar).flatten ++ '"' :: rest)
                      = '\\' :: 'f' :: ((tl.map escChar).flatten ++ '"' :: rest) from rfl]
                  rw [pStrBody_esc (unescape_f _) ih]
                  rw [← hf, hox]
                · by_cases hr : c.toNat = 13
                  · have hesc : escChar c = ['\\', 'r'] := by
                      unfold escChar
                      rw [if_neg h1, if_neg h2, if_neg hb, if_neg ht, if_neg hn, if_neg hf,
                        if_pos hr]
                    rw [hesc]
                    rw [show (['\\', 'r'] : List Char) ++ ((tl.map escChar).flatten ++ '"' :: rest)
                        = '\\' :: 'r' :: ((tl.map escChar).flatten ++ '"' :: rest) from rfl]
                    rw [pStrBody_esc (unescape_r _) ih]
                    rw [← hr, hox]
                  · have hesc : escChar c = ['\\', 'u', '0', '0',
                        hexDigitLower (c.toNat / 16), hexDigitLower (c.toNat % 16)] := by
                      unfold escChar
                      rw [if_neg h1, if_neg h2, if_neg hb, if_neg ht, if_neg hn, if_neg hf,
                        if_neg hr, if_pos h3]
                    rw [hesc]
                    rw [show (['\\', 'u', '0', '0', hexDigitLower (c.toNat / 16),
                          hexDigitLower (c.toNat % 16)] : List Char)
                          ++ ((tl.map escChar).flatten ++ '"' :: rest)
                        = '\\' :: 'u' :: '0' :: '0' :: hexDigitLower (c.toNat / 16)
                          :: hexDigitLower (c.toNat % 16)
                          :: ((tl.map escChar).flatten ++ '"' :: rest) from rfl]
                    have hun : unescape ('u' :: '0' :: '0' :: hexDigitLower (c.toNat / 16)
                        :: hexDigitLower (c.toNat % 16)
                        :: ((tl.map escChar).flatten ++ '"' :: rest))
                        = some (c, (tl.map escChar).flatten ++ '"' :: rest) := by
                      rw [unescape]
                      rw [if_neg (by decide), if_neg (by decide), if_neg (by decide),
                        if_neg (by decide), if_neg (by decide), if_neg (by decide),
                        if_neg (by decide), if_neg (by decide), if_pos rfl]
                      rw [show hexVal '0' = some 0 from rfl]
                      rw [hexVal_hexDigitLower _ (by omega), hexVal_hexDigitLower _ (by omega)]
                      simp only []
                      have hcp : 4096 * 0 + 256 * 0 + 16 * (c.toNat / 16) + c.toNat % 16
                          = c.toNat := by omega
                      rw [hcp]
                      rw [if_neg (by
                        simp only [isSurrogate, Bool.and_eq_true, decide_eq_true_eq, not_and,
                          not_lt]
                        intro hq
                        omega)]
                      rw [hox]
                    rw [pStrBody_esc hun ih]
        · have hesc : escChar c = [c] := by
            unfold escChar
            rw [if_neg h1, if_neg h2, if_neg (by omega), if_neg (by omega), if_neg (by omega),
              if_neg (by omega), if_neg (by omega), if_neg h3]
          rw [hesc]
          rw [show ([c] : List Char) ++ ((tl.map escChar).flatten ++ '"' :: rest)
              = c :: ((tl.map escChar).flatten ++ '"' :: rest) from rfl]
          rw [pStrBody_lit h1 h2 h3 ih]



theorem char_ne_of_toNat {c d : Char} (h : c.toNat ≠ d.toNat) : c ≠ d :=
  fun he => h (congrArg Char.toNat he)

theorem skipWs_cons {c : Char} (l : List Char) (h : isJsonWs c = false) :
    skipWs (c :: l) = c :: l := by
  simp [skipWs, List.dropWhile_cons, h]

/- The head of a printed JSON value: never whitespace and never one of the
   structural characters a parser looks for after a value or member. -/
def goodHead (l : List Char) : Prop :=
  match l with
  | [] => False
  | c :: _ => isJsonWs c = false ∧ c ≠ ',' ∧ c ≠ ']' ∧ c ≠ '\x7d' ∧ c ≠ ':'

theorem isDigitChar_facts {c : Char} (h : isDigitChar c = true) :
    isJsonWs c = false ∧ c ≠ ',' ∧ c ≠ ']' ∧ c ≠ '\x7d' ∧ c ≠ ':' ∧ c ≠ 'n' ∧ c ≠ 't'
      ∧ c ≠ 'f' ∧ c ≠ '"' ∧ c ≠ '[' ∧ c ≠ '\x7b' ∧ c ≠ '-' := by
  have hb : 48 ≤ c.toNat ∧ c.toNat ≤ 57 := by
    simpa [isDigitChar, Bool.and_eq_true, decide_eq_true_eq] using h
  refine ⟨?_, ?_, ?_, ?_, ?_, ?_, ?_, ?_, ?_, ?_, ?_, ?_⟩
  · simp only [isJsonWs, Bool.or_eq_false_iff, decide_eq_false_iff_not]
    omega
  · exact char_ne_of_toNat (by rw [show (',' : Char).toNat = 44 from rfl]; omega)
  · exact char_ne_of_toNat (by rw [show (']' : Char).toNat = 93 from rfl]; omega)
  · exact char_ne_of_toNat (by rw [show ('\x7d' : Char).toNat = 125 from rfl]; omega)
  · exact char_ne_of_toNat (by rw [show (':' : Char).toNat = 58 from rfl]; omega)
  · exact char_ne_of_toNat (by rw [show ('n' : Char).toNat = 110 from rfl]; omega)
  · exact char_ne_of_toNat (by rw [show ('t' : Char).toNat = 116 from rfl]; omega)
  · exact char_ne_of_toNat (by rw [show ('f' : Char).toNat = 102 from rfl]; omega)
  · exact char_ne_of_toNat (by rw [show ('"' : Char).toNat = 34 from rfl]; omega)
  · exact char_ne_of_toNat (by rw [show ('[' : Char).toNat = 91 from rfl]; omega)
  · exact char_ne_of_toNat (by rw [show ('\x7b' : Char).toNat = 123 from rfl]; omega)
  · exact char_ne_of_toNat (by rw [show ('-' : Char).toNat = 45 from rfl]; omega)

theorem jsize_pos : ∀ v : JVal, 1 ≤ jsize v := by
  intro v
  cases v <;> simp [jsize]

theorem esize_pos : ∀ (x : JVal) (tl : JArr), 1 ≤ esize (.cons x tl) := by
  intro x tl
  simp [esize]
  omega

theorem msize_pos : ∀ (k : String) (v : JVal) (tl : JObj), 1 ≤ msize (.cons k v tl) := by
  intro k v tl
  simp [msize]
  omega

theorem jsonStringify_goodHead (v : JVal) : goodHead (jsonStringify v) := by
  cases v with
  | jnull => exact ⟨by decide, by decide, by decide, by decide, by decide⟩
  | jbool b =>
    cases b
    · exact ⟨by decide, by decide, by decide, by decide, by decide⟩
    · exact ⟨by decide, by decide, by decide, by decide, by decide⟩
  | jnum n =>
    simp only [jsonStringify, intChars]
    by_cases hn : n < 0
    · rw [if_pos hn]
      exact ⟨by decide, by decide, by decide, by decide, by decide⟩
    · rw [if_neg hn]
      cases hc : natChars n.natAbs with
      | nil => exact absurd hc (natChars_ne_nil _)
      | cons d ds =>
        have hd : isDigitChar d = true := natChars_digits _ d (by rw [hc]; simp)
        have hf := isDigitChar_facts hd
        exact ⟨hf.1, hf.2.1, hf.2.2.1, hf.2.2.2.1, hf.2.2.2.2.1⟩
  | jstr s => exact ⟨by decide, by decide, by decide, by decide, by decide⟩
  | jarr xs => exact ⟨by decide, by decide, by decide, by decide, by decide⟩
  | jobj ms => exact ⟨by decide, by decide, by decide, by decide, by decide⟩

theorem goodHead_append (l1 l2 : List Char) (h : goodHead l1) : goodHead (l1 ++ l2) := by
  cases l1 with
  | nil => exact absurd h (by simp [goodHead])
  | cons c tl => exact h

theorem goodHead_skipWs {l : List Char} (h : goodHead l) : skipWs l = l := by
  cases l with
  | nil => exact absurd h (by simp [goodHead])
  | cons c tl => exact skipWs_cons tl h.1

theorem goodHead_headIs {l : List Char} (h : goodHead l) :
    headIs (',') l = false ∧ headIs (']') l = false ∧ headIs ('\x7d') l = false
      ∧ headIs (':') l = false := by
  cases l with
  | nil => exact absurd h (by simp [goodHead])
  | cons c tl =>
    obtain ⟨-, h1, h2, h3, h4⟩ := h
    refine ⟨?_, ?_, ?_, ?_⟩ <;> simp [headIs, *]

theorem string_eta (s : String) : String.mk s.data = s := rfl



theorem printElems_goodHead (y : JVal) (tl : JArr) : goodHead (printElems (.cons y tl)) := by
  cases tl with
  | nil => exact jsonStringify_goodHead y
  | cons z tl2 =>
    rw [show printElems (JArr.cons y (JArr.cons z tl2))
        = jsonStringify y ++ ',' :: printElems (JArr.cons z tl2) from rfl]
    exact goodHead_append _ _ (jsonStringify_goodHead y)

theorem printMembers_goodHead (k : String) (v : JVal) (tl : JObj) :
    goodHead (printMembers (.cons k v tl)) := by
  have hq : goodHead (printJStr k.data) := ⟨by decide, by decide, by decide, by decide, by decide⟩
  cases tl with
  | nil =>
    rw [show printMembers (JObj.cons k v JObj.nil)
        = printJStr k.data ++ ':' :: jsonStringify v from rfl]
    exact goodHead_append _ _ hq
  | cons k2 v2 tl2 =>
    rw [show printMembers (JObj.cons k v (JObj.cons k2 v2 tl2))
        = printJStr k.data ++ ':' :: jsonStringify v ++ ',' :: printMembers (JObj.cons k2 v2 tl2)
        from rfl]
    exact goodHead_append _ _ hq

theorem headIs_false_of_eq {c : Char} {l : List Char} (h : headIs c l = false) :
    ¬ (headIs c l = true) := by
  rw [h]
  simp

theorem parse_print : ∀ N : Nat,
    (∀ v : JVal, ∀ fuel : Nat, ∀ rest : List Char, jsize v ≤ N → jsize v ≤ fuel → restOk rest →
      pVal fuel (jsonStringify v ++ rest) = some (v, rest))
    ∧ (∀ xs : JArr, ∀ fuel : Nat, ∀ rest : List Char, esize xs ≤ N → esize xs ≤ fuel →
      xs ≠ JArr.nil → pElems fuel (printElems xs ++ ']' :: rest) = some (xs, rest))
    ∧ (∀ ms : JObj, ∀ fuel : Nat, ∀ rest : List Char, msize ms ≤ N → msize ms ≤ fuel →
      ms ≠ JObj.nil → pMembers fuel (printMembers ms ++ '\x7d' :: rest) = some (ms, rest)) := by
  intro N
  induction N with
  | zero =>
    refine ⟨?_, ?_, ?_⟩
    · intro v fuel rest hN _ _
      exact absurd hN (by have := jsize_pos v; omega)
    · intro xs fuel rest hN _ hne
      cases xs with
      | nil => exact absurd rfl hne
      | cons x tl => exact absurd hN (by have := esize_pos x tl; omega)
    · intro ms fuel rest hN _ hne
      cases ms with
      | nil => exact absurd rfl hne
      | cons k v tl => exact absurd hN (by have := msize_pos k v tl; omega)
  | succ N ih =>
    obtain ⟨ihv, ihe, ihm⟩ := ih
    refine ⟨?_, ?_, ?_⟩
    · intro v fuel rest hN hf hrest
      cases fuel with
      | zero => exact absurd hf (by have := jsize_pos v; omega)
      | succ f =>
        cases v with
        | jnull =>
          show pVal (f + 1) ('n' :: 'u' :: 'l' :: 'l' :: rest) = some (.jnull, rest)
          rw [pVal]
          rw [skipWs_cons _ (by decide)]
          dsimp only
          rw [if_pos rfl]
          rw [show expectChars (['u', 'l', 'l']) ('u' :: 'l' :: 'l' :: rest) = some rest from rfl]
          rfl
        | jbool b =>
          cases b with
          | true =>
            show pVal (f + 1) ('t' :: 'r' :: 'u' :: 'e' :: rest) = some (.jbool true, rest)
            rw [pVal]
            rw [skipWs_cons _ (by decide)]
            dsimp only
            rw [if_neg (by decide), if_pos rfl]
            rw [show expectChars (['r', 'u', 'e']) ('r' :: 'u' :: 'e' :: rest) = some rest
              from rfl]
            rfl
          | false =>
            show pVal (f + 1) ('f' :: 'a' :: 'l' :: 's' :: 'e' :: rest)
              = some (.jbool false, rest)
            rw [pVal]
            rw [skipWs_cons _ (by decide)]
            dsimp only
            rw [if_neg (by decide), if_neg (by decide), if_pos rfl]
            rw [show expectChars (['a', 'l', 's', 'e']) ('a' :: 'l' :: 's' :: 'e' :: rest)
                = some rest from rfl]
            rfl
        | jnum n =>
          simp only [jsonStringify, intChars]
          by_cases hn : n < 0
          · rw [if_pos hn, List.cons_append]
            rw [pVal]
            rw [skipWs_cons _ (by decide)]
            dsimp only
            rw [if_neg (by decide), if_neg (by decide), if_neg (by decide), if_neg (by decide),
              if_neg (by decide), if_neg (by decide), if_pos rfl]
            rw [pNat_natChars n.natAbs rest hrest]
            rw [Option.map_some']
            have hx : -(n.natAbs : Int) = n := by omega
            rw [hx]
          · rw [if_neg hn]
            cases hc : natChars n.natAbs with
            | nil => exact absurd hc (natChars_ne_nil _)
            | cons d ds =>
              rw [List.cons_append]
              have hd : isDigitChar d = true := natChars_digits _ d (by rw [hc]; simp)
              obtain ⟨hws, hcm, hrb, hbr, hcl, hN', hT, hF, hQ, hLB, hLC, hMin⟩ :=
                isDigitChar_facts hd
              rw [pVal]
              rw [skipWs_cons _ hws]
              dsimp only
              rw [if_neg hN', if_neg hT, if_neg hF, if_neg hQ, if_neg hLB, if_neg hLC,
                if_neg hMin, if_pos hd]
              rw [show d :: (ds ++ rest) = (d :: ds) ++ rest from rfl, ← hc]
              rw [pNat_natChars n.natAbs rest hrest]
              rw [Option.map_some']
              have hx : (n.natAbs : Int) = n := by omega
              rw [hx]
        | jstr s =>
          show pVal (f + 1) (('"' :: (s.data.map escChar).join ++ ['"']) ++ rest)
            = some (.jstr s, rest)
          rw [show (('"' :: (s.data.map escChar).join ++ ['"']) ++ rest)
              = '"' :: ((s.data.map escChar).join ++ '"' :: rest) by simp]
          rw [pVal]
          rw [skipWs_cons _ (by decide)]
          dsimp only
          rw [if_neg (by decide), if_neg (by decide), if_neg (by decide), if_pos rfl]
          rw [pStrBody_print]
          rw [Option.map_some']
        | jarr xs =>
          cases xs with
          | nil =>
            show pVal (f + 1) ('[' :: ']' :: rest) = some (.jarr .nil, rest)
            rw [pVal]
            rw [skipWs_cons _ (by decide)]
            dsimp only
            rw [if_neg (by decide), if_neg (by decide), if_neg (by decide), if_neg (by decide),
              if_pos rfl]
            rw [skipWs_cons _ (by decide)]
            rw [show headIs (']') (']' :: rest) = true from rfl]
            rw [if_pos rfl]
            rfl
          | cons y tl =>
            show pVal (f + 1) (('[' :: printElems (JArr.cons y tl) ++ [']']) ++ rest)
              = some (.jarr (.cons y tl), rest)
            rw [show ('[' :: printElems (JArr.cons y tl) ++ [']']) ++ rest
                = '[' :: (printElems (JArr.cons y tl) ++ ']' :: rest) by simp]
            rw [pVal]
            rw [skipWs_cons _ (by decide)]
            dsimp only
            rw [if_neg (by decide), if_neg (by decide), if_neg (by decide), if_neg (by decide),
              if_pos rfl]
            have hgh : goodHead (printElems (JArr.cons y tl) ++ ']' :: rest) :=
              goodHead_append _ _ (printElems_goodHead y tl)
            rw [goodHead_skipWs hgh]
            rw [if_neg (headIs_false_of_eq (goodHead_headIs hgh).2.1)]
            have harith : esize (JArr.cons y tl) ≤ N ∧ esize (JArr.cons y tl) ≤ f := by
              simp only [jsize] at hN hf
              omega
            rw [ihe (JArr.cons y tl) f rest harith.1 harith.2 (by simp)]
            rfl
        | jobj ms =>
          cases ms with
          | nil =>
            show pVal (f + 1) ('\x7b' :: '\x7d' :: rest) = some (.jobj .nil, rest)
            rw [pVal]
            rw [skipWs_cons _ (by decide)]
            dsimp only
            rw [if_neg (by decide), if_neg (by decide), if_neg (by decide), if_neg (by decide),
              if_neg (by decide), if_pos rfl]
            rw [skipWs_cons _ (by decide)]
            rw [show headIs ('\x7d') ('\x7d' :: rest) = true from rfl]
            rw [if_pos rfl]
            rfl
          | cons k v tl =>
            show pVal (f + 1) (('\x7b' :: printMembers (JObj.cons k v tl) ++ ['\x7d']) ++ rest)
              = some (.jobj (.cons k v tl), rest)
            rw [show ('\x7b' :: printMembers (JObj.cons k v tl) ++ ['\x7d']) ++ rest
                = '\x7b' :: (printMembers (JObj.cons k v tl) ++ '\x7d' :: rest) by simp]
            rw [pVal]
            rw [skipWs_cons _ (by decide)]
            dsimp only
            rw [if_neg (by decide), if_neg (by decide), if_neg (by decide), if_neg (by decide),
              if_neg (by decide), if_pos rfl]
            have hgh : goodHead (printMembers (JObj.cons k v tl) ++ '\x7d' :: rest) :=
              goodHead_append _ _ (printMembers_goodHead k v tl)
            rw [goodHead_skipWs hgh]
            rw [if_neg (headIs_false_of_eq (goodHead_headIs hgh).2.2.1)]
            have harith : msize (JObj.cons k v tl) ≤ N ∧ msize (JObj.cons k v tl) ≤ f := by
              simp only [jsize] at hN hf
              omega
            rw [ihm (JObj.cons k v tl) f rest harith.1 harith.2 (by simp)]
            rfl
    · intro xs fuel rest hN hf hne
      cases xs with
      | nil => exact absurd rfl hne
      | cons x tl =>
        cases fuel with
        | zero => exact absurd hf (by have := esize_pos x tl; omega)
        | succ f =>
          rw [pElems]
          cases tl with
          | nil =>
            rw [show printElems (JArr.cons x JArr.nil) = jsonStringify x from rfl]
            have harith : jsize x ≤ N ∧ jsize x ≤ f := by
              simp only [esize] at hN hf
              omega
            rw [ihv x f (']' :: rest) harith.1 harith.2 (by simp [restOk])]
            simp only [Option.pure_def, Option.bind_eq_bind, Option.some_bind]
            rw [skipWs_cons _ (by decide)]
            rw [show headIs (',') (']' :: rest) = false from rfl]
            rw [if_neg (by simp)]
            rw [show headIs (']') (']' :: rest) = true from rfl]
            rw [if_pos rfl]
            rfl
          | cons z tl2 =>
            rw [show printElems (JArr.cons x (JArr.cons z tl2))
                = jsonStringify x ++ ',' :: printElems (JArr.cons z tl2) from rfl]
            rw [show (jsonStringify x ++ ',' :: printElems (JArr.cons z tl2)) ++ ']' :: rest
                = jsonStringify x ++ ',' :: (printElems (JArr.cons z tl2) ++ ']' :: rest)
                by simp]
            have harith : jsize x ≤ N ∧ jsize x ≤ f
                ∧ esize (JArr.cons z tl2) ≤ N ∧ esize (JArr.cons z tl2) ≤ f := by
              simp only [esize] at hN hf ⊢
              have := esize_pos z tl2
              have := jsize_pos x
              omega
            rw [ihv x f (',' :: (printElems (JArr.cons z tl2) ++ ']' :: rest)) harith.1
              harith.2.1 (by simp [restOk])]
            simp only [Option.pure_def, Option.bind_eq_bind, Option.some_bind]
            rw [skipWs_cons _ (by decide)]
            rw [show headIs (',') (',' :: (printElems (JArr.cons z tl2) ++ ']' :: rest)) = true
              from rfl]
            rw [if_pos rfl]
            rw [show List.drop 1 (',' :: (printElems (JArr.cons z tl2) ++ ']' :: rest))
                = printElems (JArr.cons z tl2) ++ ']' :: rest from rfl]
            rw [ihe (JArr.cons z tl2) f rest harith.2.2.1 harith.2.2.2 (by simp)]
            rfl
    · intro ms fuel rest hN hf hne
      cases ms with
      | nil => exact absurd rfl hne
      | cons k v tl =>
        cases fuel with
        | zero => exact absurd hf (by have := msize_pos k v tl; omega)
        | succ f =>
          rw [pMembers]
          cases tl with
          | nil =>
            rw [show printMembers (JObj.cons k v JObj.nil)
                = printJStr k.data ++ ':' :: jsonStringify v from rfl]
            rw [show (printJStr k.data ++ ':' :: jsonStringify v) ++ '\x7d' :: rest
                = '"' :: ((k.data.map escChar).join
                    ++ '"' :: (':' :: (jsonStringify v ++ '\x7d' :: rest))) by
              simp [printJStr]]
            rw [skipWs_cons _ (by decide)]
            rw [show headIs ('"') ('"' :: ((k.data.map escChar).join
                ++ '"' :: (':' :: (jsonStringify v ++ '\x7d' :: rest)))) = true from rfl]
            rw [if_pos rfl]
            rw [show List.drop 1 ('"' :: ((k.data.map escChar).join
                ++ '"' :: (':' :: (jsonStringify v ++ '\x7d' :: rest))))
                = (k.data.map escChar).join ++ '"' :: (':' :: (jsonStringify v ++ '\x7d' :: rest))
              from rfl]
            rw [pStrBody_print]
            simp only [Option.pure_def, Option.bind_eq_bind, Option.some_bind]
            rw [skipWs_cons _ (by decide)]
            rw [show headIs (':') (':' :: (jsonStringify v ++ '\x7d' :: rest)) = true from rfl]
            rw [if_pos rfl]
            rw [show List.drop 1 (':' :: (jsonStringify v ++ '\x7d' :: rest))
                = jsonStringify v ++ '\x7d' :: rest from rfl]
            have harith : jsize v ≤ N ∧ jsize v ≤ f := by
              simp only [msize] at hN hf
              omega
            rw [ihv v f ('\x7d' :: rest) harith.1 harith.2 (by simp [restOk])]
            simp only [Option.pure_def, Option.bind_eq_bind, Option.some_bind]
            rw [skipWs_cons _ (by decide)]
            rw [show headIs (',') ('\x7d' :: rest) = false from rfl]
            rw [if_neg (by simp)]
            rw [show headIs ('\x7d') ('\x7d' :: rest) = true from rfl]
            rw [if_pos rfl]
            rw [string_eta]
            rfl
          | cons k2 v2 tl2 =>
            rw [show printMembers (JObj.cons k v (JObj.cons k2 v2 tl2))
                = printJStr k.data ++ ':' :: jsonStringify v
                    ++ ',' :: printMembers (JObj.cons k2 v2 tl2) from rfl]
            rw [show (printJStr k.data ++ ':' :: jsonStringify v
                    ++ ',' :: printMembers (JObj.cons k2 v2 tl2)) ++ '\x7d' :: rest
                = '"' :: ((k.data.map escChar).join ++ '"' :: (':' :: (jsonStringify v
                    ++ ',' :: (printMembers (JObj.cons k2 v2 tl2) ++ '\x7d' :: rest)))) by
              simp [printJStr]]
            rw [skipWs_cons _ (by decide)]
            rw [show headIs ('"') ('"' :: ((k.data.map escChar).join
                ++ '"' :: (':' :: (jsonStringify v
                    ++ ',' :: (printMembers (JObj.cons k2 v2 tl2) ++ '\x7d' :: rest)))))
                = true from rfl]
            rw [if_pos rfl]
            rw [show List.drop 1 ('"' :: ((k.data.map escChar).join
                ++ '"' :: (':' :: (jsonStringify v
                    ++ ',' :: (printMembers (JObj.cons k2 v2 tl2) ++ '\x7d' :: rest)))))
                = (k.data.map escChar).join ++ '"' :: (':' :: (jsonStringify v
                    ++ ',' :: (printMembers (JObj.cons k2 v2 tl2) ++ '\x7d' :: rest)))
              from rfl]
            rw [pStrBody_print]
            simp only [Option.pure_def, Option.bind_eq_bind, Option.some_bind]
            rw [skipWs_cons _ (by decide)]
            rw [show headIs (':') (':' :: (jsonStringify v
                ++ ',' :: (printMembers (JObj.cons k2 v2 tl2) ++ '\x7d' :: rest))) = true
              from rfl]
            rw [if_pos rfl]
            rw [show List.drop 1 (':' :: (jsonStringify v
                ++ ',' :: (printMembers (JObj.cons k2 v2 tl2) ++ '\x7d' :: rest)))
                = jsonStringify v ++ ',' :: (printMembers (JObj.cons k2 v2 tl2) ++ '\x7d' :: rest)
              from rfl]
            have harith : jsize v ≤ N ∧ jsize v ≤ f
                ∧ msize (JObj.cons k2 v2 tl2) ≤ N ∧ msize (JObj.cons k2 v2 tl2) ≤ f := by
              simp only [msize] at hN hf ⊢
              have := msize_pos k2 v2 tl2
              have := jsize_pos v
              omega
            rw [ihv v f (',' :: (printMembers (JObj.cons k2 v2 tl2) ++ '\x7d' :: rest)) harith.1
              harith.2.1 (by simp [restOk])]
            simp only [Option.pure_def, Option.bind_eq_bind, Option.some_bind]
            rw [skipWs_cons _ (by decide)]
            rw [show headIs (',') (',' :: (printMembers (JObj.cons k2 v2 tl2) ++ '\x7d' :: rest))
                = true from rfl]
            rw [if_pos rfl]
            rw [show List.drop 1 (',' :: (printMembers (JObj.cons k2 v2 tl2) ++ '\x7d' :: rest))
                = printMembers (JObj.cons k2 v2 tl2) ++ '\x7d' :: rest from rfl]
            rw [ihm (JObj.cons k2 v2 tl2) f rest harith.2.2.1 harith.2.2.2 (by simp)]
            simp only [Option.pure_def, Option.bind_eq_bind, Option.some_bind]



theorem jval_ind (P : JVal → Prop) (Q : JArr → Prop) (R : JObj → Prop)
    (h1 : P .jnull) (h2 : ∀ b, P (.jbool b)) (h3 : ∀ n, P (.jnum n)) (h4 : ∀ s, P (.jstr s))
    (h5 : ∀ xs, Q xs → P (.jarr xs)) (h6 : ∀ ms, R ms → P (.jobj ms))
    (h7 : Q .nil) (h8 : ∀ v tl, P v → Q tl → Q (.cons v tl))
    (h9 : R .nil) (h10 : ∀ k v tl, P v → R tl → R (.cons k v tl)) :
    (∀ v, P v) ∧ (∀ xs, Q xs) ∧ (∀ ms, R ms) :=
  ⟨fun v => @JVal.rec P Q R h1 h2 h3 h4 h5 h6 h7 h8 h9 h10 v,
   fun xs => @JArr.rec P Q R h1 h2 h3 h4 h5 h6 h7 h8 h9 h10 xs,
   fun ms => @JObj.rec P Q R h1 h2 h3 h4 h5 h6 h7 h8 h9 h10 ms⟩

theorem sizes_le :
    (∀ v, jsize v ≤ (jsonStringify v).length)
    ∧ (∀ xs, esize xs ≤ (printElems xs).length + 1)
    ∧ (∀ ms, msize ms ≤ (printMembers ms).length + 1) := by
  refine jval_ind _ _ _ ?_ ?_ ?_ ?_ ?_ ?_ ?_ ?_ ?_ ?_
  · simp [jsize, jsonStringify]
  · intro b
    cases b <;> simp [jsize, jsonStringify]
  · intro n
    have h := natChars_ne_nil n.natAbs
    have hp : 1 ≤ (natChars n.natAbs).length := List.length_pos.mpr h
    simp only [jsize, jsonStringify, intChars]
    by_cases hn : n < 0
    · rw [if_pos hn]
      simp only [List.length_cons]
      omega
    · rw [if_neg hn]
      omega
  · intro s
    simp [jsize, jsonStringify, printJStr]
  · intro xs ih
    simp only [jsize, jsonStringify, List.length_cons, List.length_append]
    omega
  · intro ms ih
    simp only [jsize, jsonStringify, List.length_cons, List.length_append]
    omega
  · simp [esize]
  · intro v tl ihv ihtl
    cases tl with
    | nil =>
      simp only [esize]
      rw [show printElems (JArr.cons v JArr.nil) = jsonStringify v from rfl]
      omega
    | cons z tl2 =>
      simp only [esize] at ihtl ⊢
      rw [show printElems (JArr.cons v (JArr.cons z tl2))
          = jsonStringify v ++ ',' :: printElems (JArr.cons z tl2) from rfl]
      simp only [List.length_append, List.length_cons]
      omega
  · simp [msize]
  · intro k v tl ihv ihtl
    have hk : 2 ≤ (printJStr k.data).length := by
      simp [printJStr]
    cases tl with
    | nil =>
      simp only [msize]
      rw [show printMembers (JObj.cons k v JObj.nil)
          = printJStr k.data ++ ':' :: jsonStringify v from rfl]
      simp only [List.length_append, List.length_cons]
      omega
    | cons k2 v2 tl2 =>
      simp only [msize] at ihtl ⊢
      rw [show printMembers (JObj.cons k v (JObj.cons k2 v2 tl2))
          = printJStr k.data ++ ':' :: jsonStringify v
              ++ ',' :: printMembers (JObj.cons k2 v2 tl2) from rfl]
      simp only [List.length_append, List.length_cons]
      omega

/- JSON.parse inverts JSON.stringify on this model of JSON values. -/
theorem jsonParse_jsonStringify (v : JVal) : jsonParse (jsonStringify v) = some v := by
  unfold jsonParse
  have hs := sizes_le.1 v
  have h := (parse_print (jsize v)).1 v ((jsonStringify v).length + 1) [] (le_refl _)
    (by omega) (by simp [restOk])
  rw [List.append_nil] at h
  rw [h]
  simp only [Option.pure_def, Option.bind_eq_bind, Option.some_bind]
  rfl



theorem jsSplit_ne_nil (sep : Char) (l : List Char) : jsSplit sep l ≠ [] := by
  cases l with
  | nil => simp [jsSplit]
  | cons c tl =>
    rw [jsSplit]
    split
    · simp
    · split <;> simp

theorem jsSplit_no_sep (sep : Char) (l : List Char) (h : ∀ c ∈ l, c ≠ sep) :
    jsSplit sep l = [l] := by
  induction l with
  | nil => rfl
  | cons c tl ih =>
    rw [jsSplit]
    rw [if_neg (h c (by simp))]
    rw [ih (fun c hc => h c (by simp [hc]))]

theorem jsSplit_append (sep : Char) (a r : List Char) (h : ∀ c ∈ a, c ≠ sep) :
    jsSplit sep (a ++ sep :: r) = a :: jsSplit sep r := by
  induction a with
  | nil =>
    simp only [List.nil_append]
    rw [jsSplit, if_pos rfl]
  | cons c a2 ih =>
    simp only [List.cons_append]
    rw [jsSplit]
    rw [if_neg (h c (by simp))]
    rw [ih (fun x hx => h x (by simp [hx]))]

theorem joinSep_split (sep : Char) (segs : List (List Char)) (hne : segs ≠ [])
    (h : ∀ s ∈ segs, ∀ c ∈ s, c ≠ sep) : jsSplit sep (joinSep sep segs) = segs := by
  induction segs with
  | nil => exact absurd rfl hne
  | cons s tl ih =>
    cases tl with
    | nil =>
      rw [show joinSep sep [s] = s from rfl]
      exact jsSplit_no_sep sep s (h s (by simp))
    | cons t tl2 =>
      rw [show joinSep sep (s :: t :: tl2) = s ++ sep :: joinSep sep (t :: tl2) from rfl]
      rw [jsSplit_append sep s _ (h s (by simp))]
      rw [ih (by simp) (fun x hx c hc => h x (by simp [hx]) c hc)]

theorem hexDigitUpper_ne : ∀ n, n < 16 → hexDigitUpper n ≠ '&' ∧ hexDigitUpper n ≠ '=' := by
  decide

theorem utf8Bytes_lt (c : Char) : ∀ b ∈ utf8Bytes c, b < 256 := by
  have hv := char_toNat_lt c
  intro b hb
  simp only [utf8Bytes] at hb
  split at hb <;> try (simp at hb; omega)
  split at hb <;> try (simp at hb; omega)
  split at hb <;> (simp at hb; omega)

theorem encodeURIComponent_ne (l : List Char) :
    ∀ x ∈ encodeURIComponent l, x ≠ '&' ∧ x ≠ '=' := by
  induction l with
  | nil => simp [encodeURIComponent]
  | cons c tl ih =>
    intro x hx
    rw [encodeURIComponent] at hx
    rcases List.mem_append.mp hx with hx | hx
    · by_cases hu : uriUnreserved c
      · rw [if_pos hu] at hx
        simp only [List.mem_singleton] at hx
        subst hx
        constructor
        · intro he
          rw [he] at hu
          exact absurd hu (by decide)
        · intro he
          rw [he] at hu
          exact absurd hu (by decide)
      · rw [if_neg hu] at hx
        obtain ⟨l2, hl2, hxl2⟩ := List.mem_flatten.mp hx
        obtain ⟨b, hb, rfl⟩ := List.mem_map.mp hl2
        have hblt := utf8Bytes_lt c b hb
        simp only [pctByte, List.mem_cons, List.not_mem_nil, or_false] at hxl2
        rcases hxl2 with rfl | rfl | rfl
        · exact ⟨by decide, by decide⟩
        · exact hexDigitUpper_ne (b / 16) (by omega)
        · exact hexDigitUpper_ne (b % 16) (by omega)
    · exact ih x hx

theorem objSet_append (obj : List (String × JVal)) (k : String) (v : JVal)
    (h : ∀ kv ∈ obj, kv.1 ≠ k) : objSet obj k v = obj ++ [(k, v)] := by
  induction obj with
  | nil => rfl
  | cons kv tl ih =>
    rw [objSet]
    rw [if_neg (h kv (by simp))]
    rw [ih (fun x hx => h x (by simp [hx]))]
    rfl

theorem fold_unserialize (p : List (String × JVal)) (acc : List (String × JVal))
    (hdisj : ∀ kv ∈ p, ∀ kv2 ∈ acc, kv2.1 ≠ kv.1)
    (hnodup : (p.map Prod.fst).Nodup) :
    List.foldlM unserializeStep acc
      (p.map (fun kv => [encodeURIComponent kv.1.data,
                         encodeURIComponent (jsonStringify kv.2)]))
      = some (acc ++ p) := by
  induction p generalizing acc with
  | nil => simp
  | cons kv tl ih =>
    simp only [List.map_cons, List.foldlM_cons]
    rw [show unserializeStep acc [encodeURIComponent kv.1.data,
          encodeURIComponent (jsonStringify kv.2)]
        = do
            let kd ← decodeURIComponent (encodeURIComponent kv.1.data)
            let vd ← decodeURIComponent (encodeURIComponent (jsonStringify kv.2))
            let jv ← jsonParse vd
            pure (objSet acc (String.mk kd) jv) from rfl]
    rw [decodeURIComponent_encodeURIComponent, decodeURIComponent_encodeURIComponent]
    simp only [Option.pure_def, Option.bind_eq_bind, Option.some_bind]
    rw [jsonParse_jsonStringify]
    simp only [Option.some_bind]
    rw [string_eta]
    rw [objSet_append acc kv.1 kv.2 (fun x hx => hdisj kv (by simp) x hx)]
    have hnodup2 : (tl.map Prod.fst).Nodup := by
      simp only [List.map_cons, List.nodup_cons] at hnodup
      exact hnodup.2
    have hdisj2 : ∀ kv2 ∈ tl, ∀ kv3 ∈ acc ++ [(kv.1, kv.2)], kv3.1 ≠ kv2.1 := by
      intro kv2 h2 kv3 h3
      rcases List.mem_append.mp h3 with h3 | h3
      · exact hdisj kv2 (by simp [h2]) kv3 h3
      · simp only [List.mem_singleton] at h3
        subst h3
        simp only [List.map_cons, List.nodup_cons] at hnodup
        intro he
        exact hnodup.1 (he ▸ List.mem_map.mpr ⟨kv2, h2, rfl⟩)
    have := ih (acc ++ [(kv.1, kv.2)]) hdisj2 hnodup2
    rw [this, List.append_assoc]
    rfl

/- The serializer round trip, repaired: unserializeParams inverts
   serializeParams when the serialized string is given the leading '?' that
   unserializeParams unconditionally strips, the mapping is non-empty (an
   empty mapping serializes to "" and parsing its single empty item throws),
   its keys are distinct, and its values are truthy (so the truthy filter
   drops nothing). -/
theorem unserializeParams_serializeParams (p : List (String × JVal)) (hne : p ≠ [])
    (hnodup : (p.map Prod.fst).Nodup) (htruthy : ∀ kv ∈ p, jsTruthy kv.2 = true) :
    unserializeParams ('?' :: serializeParams p) = some p := by
  unfold unserializeParams serializeParams
  rw [List.filter_eq_self.mpr htruthy]
  rw [show List.drop 1 ('?' :: joinSep ('&')
      (p.map (fun kv => encodeURIComponent kv.1.data
        ++ '=' :: encodeURIComponent (jsonStringify kv.2))))
      = joinSep ('&') (p.map (fun kv => encodeURIComponent kv.1.data
        ++ '=' :: encodeURIComponent (jsonStringify kv.2))) from rfl]
  rw [joinSep_split ('&') _ (by simpa using hne) ?hsep]
  case hsep =>
    intro s hs c hc
    obtain ⟨kv, hkv, rfl⟩ := List.mem_map.mp hs
    rcases List.mem_append.mp hc with hc | hc
    · exact (encodeURIComponent_ne _ c hc).1
    · rcases List.mem_cons.mp hc with rfl | hc
      · decide
      · exact (encodeURIComponent_ne _ c hc).1
  rw [List.map_map]
  rw [List.map_congr_left ?hsplit]
  case hsplit =>
    intro kv hkv
    show jsSplit ('=') (encodeURIComponent kv.1.data
        ++ '=' :: encodeURIComponent (jsonStringify kv.2))
      = [encodeURIComponent kv.1.data, encodeURIComponent (jsonStringify kv.2)]
    rw [jsSplit_append ('=') _ _ (fun c hc => (encodeURIComponent_ne _ c hc).2)]
    rw [jsSplit_no_sep ('=') _ (fun c hc => (encodeURIComponent_ne _ c hc).2)]
  rw [fold_unserialize p [] (by simp) hnodup]
  simp



/- PaginationWindower: the pages computed property
   (src/resource-library.js lines 193-240). -/

inductive PageToken : Type where
  | page : Int → PageToken
  | ellipsis : PageToken
deriving DecidableEq

/- lodash range(start, end) with the default step: counts up when
   start < end, otherwise down with step -1. -/
def lodashRange (start stop : Int) : List Int :=
  if start < stop then (List.range (stop - start).toNat).map (fun i => start + i)
  else (List.range (start - stop).toNat).map (fun i => start - i)

/- pages: empty when total_pages is 0, the full run 1..total_pages when
   total_pages is at most 10, otherwise a 9-wide window around
   params.pagenum with endpoints and ellipses per the source's rules. -/
def pages (pagenum total_pages : Int) : List PageToken :=
  if total_pages = 0 then []
  else if total_pages ≤ 10 then (lodashRange 1 (total_pages + 1)).map PageToken.page
  else
    let current_page := pagenum
    let ba : Int × Int :=
      if (4 : Int) ≥ current_page then
        (current_page - 1, 4 + (4 - (current_page - 1)))
      else if current_page + 4 > total_pages then
        (4 + (4 - (total_pages - current_page)), total_pages - current_page)
      else (4, 4)
    let start_page := current_page - ba.1
    let end_page := current_page + ba.2
    if start_page = 1 then
      (lodashRange start_page (end_page + 1)).map PageToken.page
        ++ [PageToken.ellipsis, PageToken.page total_pages]
    else if end_page = total_pages then
      [PageToken.page 1, PageToken.ellipsis]
        ++ (lodashRange start_page (end_page + 1)).map PageToken.page
    else
      let pagination_items := (lodashRange start_page (end_page + 1)).map PageToken.page
      let items1 :=
        if start_page ≠ 2 then PageToken.ellipsis :: pagination_items else pagination_items
      let items2 := PageToken.page 1 :: items1
      let items3 :=
        if end_page ≠ total_pages - 1 then items2 ++ [PageToken.ellipsis] else items2
      items3 ++ [PageToken.page total_pages]

/- QueryBuilder and component state. -/

/- A meta_query entry: a field filter as set by setMetaFilter, or the
   relation = 'AND' entry added during query_params. -/
inductive MQVal : Type where
  | filt : String → String → MQVal
  | rel : String → MQVal
deriving DecidableEq

/- this.params, the reactive query-parameter object.  The per-taxonomy keys
   are the declared (enabled) taxonomies; a mutation addressed to an
   undeclared taxonomy either throws (addTerms/removeTerms on undefined) or
   adds a non-reactive property the watcher never sees, so undeclared
   taxonomies are inert and not modelled. -/
structure Params : Type where
  per_page : Int
  search : String
  order : String
  orderby : String
  pagenum : Int
  meta_query : List (String × MQVal)
  ver : Int
  taxonomies : List (String × List Int)
deriving DecidableEq

def lookup {a : Type} (l : List (String × a)) (k : String) : Option a :=
  match l with
  | [] => none
  | kv :: tl => if kv.1 = k then some kv.2 else lookup tl k

def setKey {a : Type} (l : List (String × a)) (k : String) (v : a) : List (String × a) :=
  match l with
  | [] => [(k, v)]
  | kv :: tl => if kv.1 = k then (kv.1, v) :: tl else kv :: setKey tl k v

def removeKey {a : Type} (l : List (String × a)) (k : String) : List (String × a) :=
  match l with
  | [] => []
  | kv :: tl => if kv.1 = k then tl else kv :: removeKey tl k

def valid_orderbys : List String :=
  ["author", "date", "id", "include", "modified", "parent", "relevance", "slug", "title"]

/- The request-parameter object produced by query_params.  page and pagenum
   are options because the source renames pagenum to page only when pagenum is
   truthy; meta_key appears only for postmeta ordering. -/
structure ReqParams : Type where
  per_page : Int
  search : String
  order : String
  orderby : String
  pagenum : Option Int
  page : Option Int
  meta_key : Option String
  meta_query : List (String × MQVal)
  ver : Int
  taxonomies : List (String × List Int)
deriving DecidableEq

/- JavaScript truthiness of a meta_fields lookup: undefined (none) and the
   empty string are falsy. -/
def mfTruthy : Option String → Bool
  | some t => t != ""
  | none => false

/- The computed property query_params (src/resource-library.js lines 90-117).
   extend({}, this.params) is a SHALLOW copy, so meta_query is the same object
   in the copy and in this.params: setting relation = 'AND' on the copy also
   mutates this.params.meta_query.  The result is the request parameters
   together with this.params as it stands after the evaluation, or the thrown
   validation message. -/
def query_params (meta_fields : List (String × String)) (p : Params) :
    Except String (ReqParams × Params) :=
  let q0 : ReqParams :=
    { per_page := p.per_page, search := p.search, order := p.order, orderby := p.orderby,
      pagenum := some p.pagenum, page := none, meta_key := none,
      meta_query := p.meta_query, ver := p.ver, taxonomies := p.taxonomies }
  let orderby := p.orderby
  let q1 := if p.pagenum ≠ 0 then { q0 with page := some p.pagenum, pagenum := none } else q0
  let step : Except String ReqParams :=
    if lookup meta_fields orderby = some ("number") then
      Except.ok { q1 with orderby := "meta_value_num", meta_key := some orderby }
    else if mfTruthy (lookup meta_fields orderby) then
      Except.ok { q1 with orderby := "meta_value", meta_key := some orderby }
    else if valid_orderbys.contains orderby = false then
      Except.error ("Orderby must be one of: " ++ String.intercalate (", ") valid_orderbys
        ++ ", or a postmeta field")
    else Except.ok q1
  match step with
  | .error e => .error e
  | .ok q2 =>
    if q2.meta_query ≠ [] then
      let m := setKey q2.meta_query ("relation") (MQVal.rel ("AND"))
      .ok ({ q2 with meta_query := m }, { p with meta_query := m })
    else .ok (q2, p)

/- JavaScript parseInt in base 10, on the value of headers.get: null when the
   header is missing (parseInt(null) is NaN), otherwise skip leading
   whitespace, take an optional sign and the leading digits; NaN (none) when
   there are no digits. -/
def jsParseInt (s : List Char) : Option Int :=
  let t := s.dropWhile isJsonWs
  match t with
  | '-' :: r =>
    let ds := r.takeWhile isDigitChar
    if ds = [] then none else some (-(digitsToNat ds : Int))
  | '+' :: r =>
    let ds := r.takeWhile isDigitChar
    if ds = [] then none else some ((digitsToNat ds : Int))
  | r =>
    let ds := r.takeWhile isDigitChar
    if ds = [] then none else some ((digitsToNat ds : Int))

def parseIntHeader (h : Option String) : Option Int :=
  match h with
  | none => none
  | some s => jsParseInt s.data

inductive FetchErr : Type where
  | validation : String → FetchErr
  | network : String → FetchErr
  | nonJson : String → FetchErr
deriving DecidableEq

/- The outcome of the awaited fetch: a JSON body with the two pagination
   headers (each possibly absent), a rejected fetch, or a body that fails to
   parse as JSON. -/
inductive FetchOutcome : Type where
  | success : JVal → Option String → Option String → FetchOutcome
  | networkError : String → FetchOutcome
  | jsonError : String → FetchOutcome

/- The fetch-related component state: wp_data, pagination_data (an absent or
   unparsable header stores NaN, modelled as none), error, loading and the
   private initial-load flag. -/
structure FetchState : Type where
  wp_data : JVal
  pagination_total : Option Int
  pagination_total_pages : Option Int
  error : Option FetchErr
  loading : Bool
  is_initial_load : Bool
deriving DecidableEq

/- __fetchData (src/resource-library.js lines 292-314): set loading, evaluate
   query_params through constructURL (whose shared-meta_query effect on
   this.params is the returned Params), then either record the thrown
   validation error, or apply the fetch outcome: on success replace wp_data,
   set pagination_data from the two parsed headers, clear loading, and run the
   one-shot initial-load hook; on failure record the error and clear loading,
   leaving wp_data and pagination_data untouched.  No branch ever clears a
   previously recorded error. -/
def fetchData (meta_fields : List (String × String)) (p : Params) (fs : FetchState)
    (outcome : FetchOutcome) : FetchState × Params :=
  let fs1 := { fs with loading := true }
  match query_params meta_fields p with
  | .error e => ({ fs1 with error := some (.validation e), loading := false }, p)
  | .ok q =>
    match outcome with
    | .success body hTotal hTotalPages =>
      ({ fs1 with
          wp_data := body,
          pagination_total := parseIntHeader hTotal,
          pagination_total_pages := parseIntHeader hTotalPages,
          loading := false,
          is_initial_load := false }, q.2)
    | .networkError m => ({ fs1 with error := some (.network m), loading := false }, q.2)
    | .jsonError m => ({ fs1 with error := some (.nonJson m), loading := false }, q.2)

/- addTerms (src/resource-library.js lines 362-376): wrap a single id into a
   list, then push each id not already present, in order. -/
def addTermsList (current terms : List Int) : List Int :=
  terms.foldl (fun acc t => if acc.contains t then acc else acc ++ [t]) current

inductive TermsArg : Type where
  | one : Int → TermsArg
  | many : List Int → TermsArg

def termsAsList : TermsArg → List Int
  | .one t => [t]
  | .many l => l

def addTerms (current : List Int) (terms : TermsArg) : List Int :=
  addTermsList current (termsAsList terms)

/- removeTerms: indexOf + splice removes the first occurrence of each id. -/
def removeTermsList (current terms : List Int) : List Int :=
  terms.foldl (fun acc t => acc.erase t) current

/- The watcher machine: params, the two one-shot flags, and the history stack
   (most recent entry first), driven by public mutations, pop navigations and
   the created hook. -/

structure Config : Type where
  path : String
  per_page : Int
  initial_search : String
  initial_order : String
  initial_orderby : String
  initial_page : Int
  initial_meta_query : List (String × MQVal)
  ver : Int
  initial_taxonomies : List (String × List Int)
  meta_fields : List (String × String)

/- initialParams (lines 544-554). -/
def initialParams (cfg : Config) : Params :=
  { per_page := cfg.per_page, search := cfg.initial_search, order := cfg.initial_order,
    orderby := cfg.initial_orderby, pagenum := cfg.initial_page,
    meta_query := cfg.initial_meta_query, ver := cfg.ver, taxonomies := [] }

/- reset (lines 558-563): merge({}, initialParams(), initial_taxonomies). -/
def resetParams (cfg : Config) : Params :=
  { initialParams cfg with taxonomies := cfg.initial_taxonomies }

def jarrOfInts : List Int → JArr
  | [] => .nil
  | n :: tl => .cons (.jnum n) (jarrOfInts tl)

def mqValToJVal : MQVal → JVal
  | .filt f v => .jobj (.cons ("field") (.jstr f) (.cons ("value") (.jstr v) .nil))
  | .rel r => .jstr r

def mqToJObj : List (String × MQVal) → JObj
  | [] => .nil
  | kv :: tl => .cons kv.1 (mqValToJVal kv.2) (mqToJObj tl)

/- this.params as the JSON object serializeParams sees, in insertion order:
   the seven base keys, then one key per declared taxonomy. -/
def paramsToJObj (p : Params) : List (String × JVal) :=
  [(("per_page" : String), JVal.jnum p.per_page), (("search" : String), JVal.jstr p.search),
   (("order" : String), JVal.jstr p.order), (("orderby" : String), JVal.jstr p.orderby),
   (("pagenum" : String), JVal.jnum p.pagenum),
   (("meta_query" : String), JVal.jobj (mqToJObj p.meta_query)),
   (("ver" : String), JVal.jnum p.ver)]
  ++ p.taxonomies.map (fun kv => (kv.1, JVal.jarr (jarrOfInts kv.2)))

structure HistEntry : Type where
  url : List Char
  state : Params
deriving DecidableEq

structure MState : Type where
  params : Params
  page_updated : Bool
  suppress_history : Bool
  history : List HistEntry
deriving DecidableEq

/- The only effect __fetchData has on this.params: evaluating query_params
   inside constructURL mutates the shared meta_query (relation = 'AND') when
   it is non-empty and the orderby validation passes.  The fetch-state fields
   are modelled separately by fetchData; nothing in the watcher reads them. -/
def fetchParamsEffect (cfg : Config) (p : Params) : Params :=
  match query_params cfg.meta_fields p with
  | .ok q => q.2
  | .error _ => p

/- The deep watcher handler on params (lines 642-664): force pagenum to 1
   unless the page-updated flag is set, start __fetchData (its synchronous
   prefix evaluates query_params, hence fetchParamsEffect), clear the
   page-updated flag, push a history entry built from the current path and the
   serialized params unless suppressed, and clear the suppression flag. -/
def react (cfg : Config) (s : MState) : MState :=
  let p1 := if s.page_updated = false then { s.params with pagenum := 1 } else s.params
  let p2 := fetchParamsEffect cfg p1
  let hist :=
    if s.suppress_history = false then
      { url := cfg.path.data ++ '?' :: serializeParams (paramsToJObj p2), state := p2 }
        :: s.history
    else s.history
  { params := p2, page_updated := false, suppress_history := false, history := hist }

inductive Op : Type where
  | selectPage : Int → Op
  | setSearch : String → Op
  | setOrder : String → Op
  | setOrderBy : String → Op
  | toggleOrder : Op
  | selectOrderBy : String → String → Op
  | setTerms : String → List Int → Op
  | addTerms : String → TermsArg → Op
  | removeTerms : String → TermsArg → Op
  | resetTerms : String → Op
  | setMetaFilter : String → String → Op
  | removeMetaFilter : String → Op

def setTax (p : Params) (tax : String) (l : List Int) : Params :=
  { p with taxonomies := setKey p.taxonomies tax l }

/- Apply one public mutator to params.  The result carries the new params,
   whether the mutation changed an observed value (Vue notifies the deep
   watcher only on a real change; assigning a fresh object or array always
   notifies), and whether the page-updated flag was set (only selectPage sets
   it, and it sets it before mutating, so it is set even when the page does
   not change).  A mutator that throws (setOrder with an invalid direction)
   or one addressed to an undeclared taxonomy mutates nothing. -/
def applyOp (p : Params) : Op → Params × Bool × Bool
  | .selectPage pg => ({ p with pagenum := pg }, decide (pg ≠ p.pagenum), true)
  | .setSearch x => ({ p with search := x }, decide (x ≠ p.search), false)
  | .setOrder o =>
    if o ≠ "asc" ∧ o ≠ "desc" then (p, false, false)
    else ({ p with order := o }, decide (o ≠ p.order), false)
  | .setOrderBy ob => ({ p with orderby := ob }, decide (ob ≠ p.orderby), false)
  | .toggleOrder =>
    if p.order = "asc" then ({ p with order := "desc" }, true, false)
    else ({ p with order := "asc" }, true, false)
  | .selectOrderBy ob dord =>
    let d := if dord = "" then "asc" else dord
    if p.orderby = ob then
      if p.order = "asc" then ({ p with order := "desc" }, true, false)
      else ({ p with order := "asc" }, true, false)
    else
      if d ≠ "asc" ∧ d ≠ "desc" then (p, false, false)
      else ({ p with order := d, orderby := ob }, true, false)
  | .setTerms tax ts =>
    match lookup p.taxonomies tax with
    | none => (p, false, false)
    | some _ => (setTax p tax ts, true, false)
  | .addTerms tax ts =>
    match lookup p.taxonomies tax with
    | none => (p, false, false)
    | some cur =>
      let l2 := addTermsList cur (termsAsList ts)
      (setTax p tax l2, decide (l2 ≠ cur), false)
  | .removeTerms tax ts =>
    match lookup p.taxonomies tax with
    | none => (p, false, false)
    | some cur =>
      let l2 := removeTermsList cur (termsAsList ts)
      (setTax p tax l2, decide (l2 ≠ cur), false)
  | .resetTerms tax =>
    match lookup p.taxonomies tax with
    | none => (p, false, false)
    | some _ => (setTax p tax [], true, false)
  | .setMetaFilter f v =>
    ({ p with meta_query := setKey p.meta_query f (.filt f v) }, true, false)
  | .removeMetaFilter f =>
    match lookup p.meta_query f with
    | none => (p, false, false)
    | some _ => ({ p with meta_query := removeKey p.meta_query f }, true, false)

/- An externally triggered event: a public mutator call, or a browser pop
   (back/forward) navigation whose listener (lines 616-630) suppresses the
   next push and either restores the carried snapshot with the page flag set,
   or calls reset; either assignment is a fresh object, so the watcher
   reaction always follows. -/
inductive Ev : Type where
  | pub : Op → Ev
  | pop : Option Params → Ev

def evStep (cfg : Config) (s : MState) : Ev → MState
  | .pub op =>
    let r := applyOp s.params op
    let s2 := { s with params := r.1, page_updated := s.page_updated || r.2.2 }
    if r.2.1 then react cfg s2 else s2
  | .pop snap =>
    match snap with
    | some ps =>
      react cfg { s with suppress_history := true, page_updated := true, params := ps }
    | none => react cfg { s with suppress_history := true, params := resetParams cfg }

/- created (lines 667-683): the flags start set, params is assigned its
   initial value p0 (resetParams cfg when the URL has no query string, the
   merge of initialParams with the unserialized query string otherwise), and
   that assignment fires the one suppressed initial reaction. -/
def createdState (cfg : Config) (p0 : Params) : MState :=
  react cfg { params := p0, page_updated := true, suppress_history := true, history := [] }

def run (cfg : Config) (p0 : Params) (es : List Ev) : MState :=
  es.foldl (evStep cfg) (createdState cfg p0)

/- JavaScript falsiness of a JSON value (the complement of jsTruthy), and the
   spec-side restatement of serializeParams from its words: omit the falsy
   keys, emit urlEncode(key) = urlEncode(JSONEncode(value)), join with
   ampersands. -/
def jsFalsy : JVal → Bool
  | .jnull => true
  | .jbool b => !b
  | .jnum n => n == 0
  | .jstr s => s == ""
  | .jarr _ => false
  | .jobj _ => false

def serializeParamsSpec (params : List (String × JVal)) : List Char :=
  joinSep ('&')
    ((params.filter (fun kv => !jsFalsy kv.2)).map
      (fun kv => encodeURIComponent kv.1.data ++ '=' :: encodeURIComponent (jsonStringify kv.2)))

/- The claim's omission rule, which also treats empty arrays and empty
   objects as falsy. -/
def claimFalsy : JVal → Bool
  | .jnull => true
  | .jbool b => !b
  | .jnum n => n == 0
  | .jstr s => s == ""
  | .jarr .nil => true
  | .jarr _ => false
  | .jobj .nil => true
  | .jobj _ => false

def serializeParamsClaim (params : List (String × JVal)) : List Char :=
  joinSep ('&')
    ((params.filter (fun kv => !claimFalsy kv.2)).map
      (fun kv => encodeURIComponent kv.1.data ++ '=' :: encodeURIComponent (jsonStringify kv.2)))




theorem setKey_ne_nil {a : Type} (l : List (String × a)) (k : String) (v : a) :
    setKey l k v ≠ [] := by
  cases l with
  | nil => simp [setKey]
  | cons kv tl =>
    rw [setKey]
    split <;> simp

theorem setKey_idem {a : Type} (l : List (String × a)) (k : String) (v : a) :
    setKey (setKey l k v) k v = setKey l k v := by
  induction l with
  | nil => simp [setKey]
  | cons kv tl ih =>
    rw [setKey]
    split
    case _ h => rw [setKey, if_pos h]
    case _ h => rw [setKey, if_neg h, ih]

/- The params object query_params hands back: unchanged when meta_query is
   empty, otherwise with relation = 'AND' written into the shared
   meta_query. -/
def mqUpdate (p : Params) : Params :=
  if p.meta_query = [] then p
  else { p with meta_query := setKey p.meta_query ("relation") (MQVal.rel ("AND")) }

theorem query_params_ok_snd {mf : List (String × String)} {p : Params}
    {q : ReqParams × Params} (h : query_params mf p = .ok q) : q.2 = mqUpdate p := by
  by_cases h1 : lookup mf p.orderby = some ("number") <;>
    by_cases h2 : mfTruthy (lookup mf p.orderby) = true <;>
      by_cases h3 : valid_orderbys.contains p.orderby = false <;>
        by_cases h4 : p.pagenum = 0 <;>
          by_cases h5 : p.meta_query = [] <;>
            simp_all [query_params, mqUpdate] <;> rw [← h]

theorem query_params_error_indep {mf : List (String × String)} {p : Params} {e : String}
    (h : query_params mf p = .error e) (p2 : Params) (hsame : p2.orderby = p.orderby) :
    query_params mf p2 = .error e := by
  by_cases h1 : lookup mf p.orderby = some ("number") <;>
    by_cases h2 : mfTruthy (lookup mf p.orderby) = true <;>
      by_cases h3 : valid_orderbys.contains p.orderby = false <;>
        by_cases h4 : p.pagenum = 0 <;>
          by_cases h5 : p.meta_query = [] <;>
            by_cases h6 : p2.pagenum = 0 <;>
              by_cases h7 : p2.meta_query = [] <;>
                simp_all [query_params]

theorem query_params_ok_indep {mf : List (String × String)} {p : Params}
    {q : ReqParams × Params} (h : query_params mf p = .ok q) (p2 : Params)
    (hsame : p2.orderby = p.orderby) : ∃ q2, query_params mf p2 = .ok q2 := by
  by_cases h1 : lookup mf p.orderby = some ("number") <;>
    by_cases h2 : mfTruthy (lookup mf p.orderby) = true <;>
      by_cases h3 : valid_orderbys.contains p.orderby = false <;>
        by_cases h4 : p.pagenum = 0 <;>
          by_cases h5 : p.meta_query = [] <;>
            by_cases h6 : p2.pagenum = 0 <;>
              by_cases h7 : p2.meta_query = [] <;>
                simp_all [query_params]

theorem fetchParamsEffect_cases (cfg : Config) (p : Params) :
    fetchParamsEffect cfg p = p ∨ (p.meta_query ≠ [] ∧ fetchParamsEffect cfg p
      = { p with meta_query := setKey p.meta_query ("relation") (MQVal.rel ("AND")) }) := by
  unfold fetchParamsEffect
  cases hq : query_params cfg.meta_fields p with
  | error e => left; rfl
  | ok q =>
    have hs := query_params_ok_snd hq
    by_cases hmq : p.meta_query = []
    · left
      show q.2 = p
      rw [hs]
      simp [mqUpdate, hmq]
    · right
      refine ⟨hmq, ?_⟩
      show q.2 = _
      rw [hs]
      simp [mqUpdate, hmq]

theorem fetchParamsEffect_pagenum (cfg : Config) (p : Params) :
    (fetchParamsEffect cfg p).pagenum = p.pagenum := by
  rcases fetchParamsEffect_cases cfg p with h | h
  · rw [h]
  · rw [h.2]

theorem fetchParamsEffect_fields (cfg : Config) (p : Params) :
    (fetchParamsEffect cfg p).per_page = p.per_page
    ∧ (fetchParamsEffect cfg p).search = p.search
    ∧ (fetchParamsEffect cfg p).order = p.order
    ∧ (fetchParamsEffect cfg p).orderby = p.orderby
    ∧ (fetchParamsEffect cfg p).pagenum = p.pagenum
    ∧ (fetchParamsEffect cfg p).ver = p.ver
    ∧ (fetchParamsEffect cfg p).taxonomies = p.taxonomies := by
  rcases fetchParamsEffect_cases cfg p with h | h
  · rw [h]
    exact ⟨rfl, rfl, rfl, rfl, rfl, rfl, rfl⟩
  · rw [h.2]
    exact ⟨rfl, rfl, rfl, rfl, rfl, rfl, rfl⟩

theorem fetchParamsEffect_empty_mq (cfg : Config) (p : Params) (h : p.meta_query = []) :
    fetchParamsEffect cfg p = p := by
  rcases fetchParamsEffect_cases cfg p with hc | hc
  · exact hc
  · exact absurd h hc.1

theorem fetchParamsEffect_idem (cfg : Config) (p : Params) :
    fetchParamsEffect cfg (fetchParamsEffect cfg p) = fetchParamsEffect cfg p := by
  cases hq : query_params cfg.meta_fields p with
  | error e =>
    have h1 : fetchParamsEffect cfg p = p := by
      unfold fetchParamsEffect
      rw [hq]
    rw [h1, h1]
  | ok q =>
    have hs := query_params_ok_snd hq
    have h1 : fetchParamsEffect cfg p = mqUpdate p := by
      unfold fetchParamsEffect
      rw [hq]
      exact hs
    rw [h1]
    obtain ⟨q2, hq2⟩ := query_params_ok_indep hq (mqUpdate p) (by
      unfold mqUpdate
      split <;> rfl)
    have hs2 := query_params_ok_snd hq2
    have h2 : fetchParamsEffect cfg (mqUpdate p) = mqUpdate (mqUpdate p) := by
      unfold fetchParamsEffect
      rw [hq2]
      exact hs2
    rw [h2]
    unfold mqUpdate
    by_cases hmq : p.meta_query = []
    · simp [hmq]
    · simp only [if_neg hmq]
      have hne := setKey_ne_nil p.meta_query ("relation") (MQVal.rel ("AND"))
      simp only [hne, if_neg]
      simp [setKey_idem]



theorem react_suppress (cfg : Config) (s : MState) :
    (react cfg s).suppress_history = false := rfl

theorem react_page_updated (cfg : Config) (s : MState) :
    (react cfg s).page_updated = false := rfl

theorem react_history_suppressed (cfg : Config) (s : MState) (h : s.suppress_history = true) :
    (react cfg s).history = s.history := by
  simp [react, h]

theorem react_history_push (cfg : Config) (s : MState) (h : s.suppress_history = false) :
    (react cfg s).history
      = { url := cfg.path.data ++ '?' :: serializeParams (paramsToJObj (react cfg s).params),
          state := (react cfg s).params } :: s.history := by
  simp [react, h]

theorem react_pagenum_reset (cfg : Config) (s : MState) (h : s.page_updated = false) :
    (react cfg s).params.pagenum = 1 := by
  simp only [react, h, if_pos]
  rw [fetchParamsEffect_pagenum]

theorem react_pagenum_keep (cfg : Config) (s : MState) (h : s.page_updated = true) :
    (react cfg s).params.pagenum = s.params.pagenum := by
  simp only [react, h]
  rw [if_neg (by simp)]
  rw [fetchParamsEffect_pagenum]

theorem react_pagenum_ge (cfg : Config) (s : MState) (h : 1 ≤ s.params.pagenum) :
    1 ≤ (react cfg s).params.pagenum := by
  cases hp : s.page_updated with
  | false => rw [react_pagenum_reset cfg s hp]
  | true => rw [react_pagenum_keep cfg s hp]; exact h

/- applyOp leaves pagenum alone except for selectPage, which writes its
   argument. -/
theorem applyOp_pagenum (p : Params) (op : Op) :
    (match op with
     | .selectPage pg => (applyOp p op).1.pagenum = pg
     | _ => (applyOp p op).1.pagenum = p.pagenum) := by
  cases op <;> simp only [applyOp, setTax] <;> (repeat' split) <;> rfl

theorem evStep_pagenum_ge (cfg : Config) (s : MState) (e : Ev)
    (hcfg : 1 ≤ cfg.initial_page) (hs : 1 ≤ s.params.pagenum)
    (hv : match e with
          | .pub (.selectPage pg) => 1 ≤ pg
          | .pub _ => True
          | .pop (some snap) => 1 ≤ snap.pagenum
          | .pop none => True) :
    1 ≤ (evStep cfg s e).params.pagenum := by
  cases e with
  | pub op =>
    have hap := applyOp_pagenum s.params op
    have h1 : 1 ≤ (applyOp s.params op).1.pagenum := by
      cases op <;> simp only at hap hv <;> omega
    simp only [evStep]
    split
    · exact react_pagenum_ge cfg _ h1
    · exact h1
  | pop snap =>
    cases snap with
    | some ps =>
      simp only [evStep]
      have : 1 ≤ ps.pagenum := hv
      exact react_pagenum_ge cfg _ this
    | none =>
      simp only [evStep]
      cases hp : s.page_updated with
      | false =>
        apply le_of_eq
        exact (react_pagenum_reset cfg _ rfl).symm
      | true =>
        rw [react_pagenum_keep cfg _ rfl]
        exact hcfg

theorem evStep_suppress (cfg : Config) (s : MState) (e : Ev)
    (h : s.suppress_history = false) : (evStep cfg s e).suppress_history = false := by
  cases e with
  | pub op =>
    simp only [evStep]
    split
    · exact react_suppress cfg _
    · exact h
  | pop snap =>
    cases snap with
    | some ps => exact react_suppress cfg _
    | none => exact react_suppress cfg _

theorem run_suppress (cfg : Config) (p0 : Params) (es : List Ev) :
    (run cfg p0 es).suppress_history = false := by
  unfold run
  have hgen : ∀ (l : List Ev) (s : MState), s.suppress_history = false →
      (l.foldl (evStep cfg) s).suppress_history = false := by
    intro l
    induction l with
    | nil => intro s h; exact h
    | cons e tl ih =>
      intro s h
      exact ih _ (evStep_suppress cfg s e h)
  exact hgen es _ (react_suppress cfg _)

theorem run_pagenum_ge (cfg : Config) (p0 : Params) (es : List Ev)
    (hcfg : 1 ≤ cfg.initial_page) (h0 : 1 ≤ p0.pagenum)
    (hv : ∀ e ∈ es, (match e with
          | .pub (.selectPage pg) => 1 ≤ pg
          | .pub _ => True
          | .pop (some snap) => 1 ≤ snap.pagenum
          | .pop none => True : Prop)) :
    1 ≤ (run cfg p0 es).params.pagenum := by
  unfold run
  have hinit : 1 ≤ (createdState cfg p0).params.pagenum := by
    unfold createdState
    exact react_pagenum_ge cfg _ h0
  have hgen : ∀ (l : List Ev) (s : MState), 1 ≤ s.params.pagenum →
      (∀ e ∈ l, (match e with
          | .pub (.selectPage pg) => 1 ≤ pg
          | .pub _ => True
          | .pop (some snap) => 1 ≤ snap.pagenum
          | .pop none => True : Prop)) →
      1 ≤ (l.foldl (evStep cfg) s).params.pagenum := by
    intro l
    induction l with
    | nil => intro s h _; exact h
    | cons e tl ih =>
      intro s h hv2
      exact ih _ (evStep_pagenum_ge cfg s e hcfg h (hv2 e (by simp)))
        (fun e2 he2 => hv2 e2 (by simp [he2]))
  exact hgen es _ hinit hv

/- Every state snapshot the machine ever pushes into history is a fixpoint of
   the fetch effect (its meta_query is already relation-stable). -/
def histInv (cfg : Config) (s : MState) : Prop :=
  ∀ e ∈ s.history, fetchParamsEffect cfg e.state = e.state

theorem react_histInv (cfg : Config) (s : MState) (h : histInv cfg s) :
    histInv cfg (react cfg s) := by
  intro e he
  cases hsup : s.suppress_history with
  | true =>
    rw [react_history_suppressed cfg s hsup] at he
    exact h e he
  | false =>
    rw [react_history_push cfg s hsup] at he
    rcases List.mem_cons.mp he with rfl | he2
    · show fetchParamsEffect cfg (react cfg s).params = (react cfg s).params
      simp only [react]
      exact fetchParamsEffect_idem cfg _
    · exact h e he2

theorem evStep_histInv (cfg : Config) (s : MState) (e : Ev) (h : histInv cfg s) :
    histInv cfg (evStep cfg s e) := by
  cases e with
  | pub op =>
    simp only [evStep]
    split
    · exact react_histInv cfg _ h
    · exact h
  | pop snap =>
    cases snap with
    | some ps => exact react_histInv cfg _ h
    | none => exact react_histInv cfg _ h

theorem run_histInv (cfg : Config) (p0 : Params) (es : List Ev) :
    histInv cfg (run cfg p0 es) := by
  unfold run
  have hinit : histInv cfg (createdState cfg p0) := by
    apply react_histInv
    intro e he
    exact absurd he (by simp)
  have hgen : ∀ (l : List Ev) (s : MState), histInv cfg s →
      histInv cfg (l.foldl (evStep cfg) s) := by
    intro l
    induction l with
    | nil => intro s h; exact h
    | cons e2 tl ih =>
      intro s h
      exact ih _ (evStep_histInv cfg s e2 h)
  exact hgen es _ hinit


end RL

namespace RL

/- Concrete fixtures used by witnesses and counterexamples. -/

def cfgEx : Config where
  path := "/resources"
  per_page := 10
  initial_search := ""
  initial_order := "desc"
  initial_orderby := "date"
  initial_page := 1
  initial_meta_query := []
  ver := 1
  initial_taxonomies := [(("tags" : String), [3])]
  meta_fields := []

def cfgPage2 : Config := { cfgEx with initial_page := 2 }

def pDateEx : Params := resetParams cfgEx

def pMqEx : Params :=
  { pDateEx with meta_query := [(("price" : String), MQVal.filt ("price") ("5"))] }

/- addTermsList lemmas for C10. -/

theorem addTermsList_nodup (ts acc : List Int) (h : acc.Nodup) : (addTermsList acc ts).Nodup := by
  induction ts generalizing acc with
  | nil => exact h
  | cons t tl ih =>
    rw [show addTermsList acc (t :: tl)
        = addTermsList (if acc.contains t then acc else acc ++ [t]) tl from rfl]
    by_cases hc : acc.contains t
    · rw [if_pos hc]
      exact ih acc h
    · rw [if_neg hc]
      refine ih _ ?_
      rw [List.nodup_append]
      refine ⟨h, List.nodup_singleton t, ?_⟩
      intro x hx
      simp only [List.mem_singleton]
      intro he
      subst he
      exact hc (List.elem_eq_true_of_mem hx)

theorem addTermsList_mem_acc (ts acc : List Int) (x : Int) (h : x ∈ acc) :
    x ∈ addTermsList acc ts := by
  induction ts generalizing acc with
  | nil => exact h
  | cons t tl ih =>
    rw [show addTermsList acc (t :: tl)
        = addTermsList (if acc.contains t then acc else acc ++ [t]) tl from rfl]
    by_cases hc : acc.contains t
    · rw [if_pos hc]
      exact ih acc h
    · rw [if_neg hc]
      exact ih _ (by simp [h])

theorem addTermsList_mem_terms (ts acc : List Int) (x : Int) (h : x ∈ ts) :
    x ∈ addTermsList acc ts := by
  induction ts generalizing acc with
  | nil => exact absurd h (by simp)
  | cons t tl ih =>
    rw [show addTermsList acc (t :: tl)
        = addTermsList (if acc.contains t then acc else acc ++ [t]) tl from rfl]
    rcases List.mem_cons.mp h with he | h2
    · subst he
      by_cases hc : acc.contains x
      · rw [if_pos hc]
        exact addTermsList_mem_acc tl acc x (List.mem_of_elem_eq_true hc)
      · rw [if_neg hc]
        exact addTermsList_mem_acc tl _ x (by simp)
    · by_cases hc : acc.contains t <;> [rw [if_pos hc]; rw [if_neg hc]] <;> exact ih _ h2

theorem addTermsList_id (ts acc : List Int) (h : ∀ t ∈ ts, t ∈ acc) :
    addTermsList acc ts = acc := by
  induction ts with
  | nil => rfl
  | cons t tl ih =>
    rw [show addTermsList acc (t :: tl)
        = addTermsList (if acc.contains t then acc else acc ++ [t]) tl from rfl]
    rw [if_pos (List.elem_eq_true_of_mem (h t (by simp)))]
    exact ih (fun x hx => h x (by simp [hx]))

theorem addTermsList_append (ts acc : List Int) :
    ∃ extra, addTermsList acc ts = acc ++ extra
      ∧ ∀ x ∈ extra, x ∈ ts ∧ x ∉ acc := by
  induction ts generalizing acc with
  | nil => exact ⟨[], by simp [addTermsList], by simp⟩
  | cons t tl ih =>
    rw [show addTermsList acc (t :: tl)
        = addTermsList (if acc.contains t then acc else acc ++ [t]) tl from rfl]
    by_cases hc : acc.contains t
    · rw [if_pos hc]
      obtain ⟨extra, he, hp⟩ := ih acc
      exact ⟨extra, he, fun x hx => ⟨by simp [(hp x hx).1], (hp x hx).2⟩⟩
    · rw [if_neg hc]
      obtain ⟨extra, he, hp⟩ := ih (acc ++ [t])
      refine ⟨t :: extra, by simpa using he, ?_⟩
      intro x hx
      rcases List.mem_cons.mp hx with rfl | hx2
      · exact ⟨by simp, fun hmem => hc (List.elem_eq_true_of_mem hmem)⟩
      · have := hp x hx2
        refine ⟨by simp [this.1], ?_⟩
        intro hmem
        exact this.2 (by simp [hmem])

/-- C10: for a duplicate-free term list and any terms argument (single id or
list of ids), addTerms appends only the ids not already present (the original
list is a prefix and everything after it comes from the argument and was not
present before), the result is duplicate-free, and a second identical call
changes nothing. -/
theorem c10_addTerms_dedup_idem (current : List Int) (arg : TermsArg)
    (h : current.Nodup) :
    (addTerms current arg).Nodup
    ∧ addTerms (addTerms current arg) arg = addTerms current arg
    ∧ (addTerms current arg).take current.length = current
    ∧ ((addTerms current arg).drop current.length).all
        (fun x => (termsAsList arg).contains x && !current.contains x) = true := by
  obtain ⟨extra, he, hp⟩ := addTermsList_append (termsAsList arg) current
  refine ⟨addTermsList_nodup _ _ h, ?_, ?_, ?_⟩
  · exact addTermsList_id _ _
      (fun t ht => addTermsList_mem_terms (termsAsList arg) current t ht)
  · rw [show addTerms current arg = addTermsList current (termsAsList arg) from rfl, he]
    exact List.take_left current extra
  · rw [show addTerms current arg = addTermsList current (termsAsList arg) from rfl, he]
    rw [List.drop_left current extra]
    rw [List.all_eq_true]
    intro x hx
    have h1 := (hp x hx).1
    have h2 := (hp x hx).2
    rw [Bool.and_eq_true]
    constructor
    · exact List.elem_eq_true_of_mem h1
    · rw [Bool.not_eq_true']
      cases hc : current.contains x with
      | false => rfl
      | true => exact absurd (List.mem_of_elem_eq_true hc) h2

theorem c10_addTerms_witness :
    (addTerms [1, 2] (TermsArg.many [2, 3])).Nodup
    ∧ addTerms (addTerms [1, 2] (TermsArg.many [2, 3])) (TermsArg.many [2, 3])
      = addTerms [1, 2] (TermsArg.many [2, 3])
    ∧ (addTerms [1, 2] (TermsArg.many [2, 3])).take ([1, 2] : List Int).length = [1, 2]
    ∧ ((addTerms [1, 2] (TermsArg.many [2, 3])).drop ([1, 2] : List Int).length).all
        (fun x => (termsAsList (TermsArg.many [2, 3])).contains x
          && !([1, 2] : List Int).contains x) = true :=
  c10_addTerms_dedup_idem [1, 2] (TermsArg.many [2, 3]) (by decide)

end RL

namespace RL

/-- C1: the claim as stated fails — unserializeParams drops the first character
of the query string (substring(1)), so on a bare serialized string the first
key comes back beheaded.  Serializing the single truthy pair ("ab", "x")
and deserializing the result yields ("b", "x"), not the original mapping. -/
theorem unserializeParams_head (c d : Char) (l : List Char) :
    unserializeParams (c :: l) = unserializeParams (d :: l) := rfl

theorem c1_roundtrip_counterexample :
    unserializeParams (serializeParams [(("ab" : String), JVal.jstr ("x"))])
      = some [(("b" : String), JVal.jstr ("x"))]
    ∧ unserializeParams (serializeParams [(("ab" : String), JVal.jstr ("x"))])
      ≠ some [(("ab" : String), JVal.jstr ("x"))] := by
  have h1 : serializeParams [(("ab" : String), JVal.jstr ("x"))]
      = 'a' :: serializeParams [(("b" : String), JVal.jstr ("x"))] := by decide
  have h2 : unserializeParams (serializeParams [(("ab" : String), JVal.jstr ("x"))])
      = some [(("b" : String), JVal.jstr ("x"))] := by
    rw [h1, unserializeParams_head 'a' '?']
    exact unserializeParams_serializeParams _ (by decide) (by decide) (by decide)
  exact ⟨h2, by rw [h2]; decide⟩

/-- C1 (amended): the round trip holds once the serialized string is prefixed
with one extra character (the leading '?' of location.search, which
unserializeParams strips): for every non-empty parameter list with pairwise
distinct keys and truthy JSON values,
unserializeParams ('?' :: serializeParams p) = some p. -/
theorem c1_roundtrip_amended (p : List (String × JVal)) (hne : p ≠ [])
    (hnodup : (p.map Prod.fst).Nodup)
    (htruthy : ∀ kv ∈ p, jsTruthy kv.2 = true) :
    unserializeParams ('?' :: serializeParams p) = some p :=
  unserializeParams_serializeParams p hne hnodup htruthy

theorem c1_roundtrip_amended_witness :
    unserializeParams ('?' :: serializeParams [(("a" : String), JVal.jnum 1)])
      = some [(("a" : String), JVal.jnum 1)] :=
  c1_roundtrip_amended [(("a" : String), JVal.jnum 1)] (by decide) (by decide)
    (by decide)

/-- C2: the claim's window for currentPage = 1, totalPages = 20 is wrong — the
code shows 9 numeric entries (1..9) before the trailing ellipsis and last
page, not 5; pages 1 20 is [1,...,9, ellipsis, 20], which differs from the
claimed [1,2,3,4,5, ellipsis, 20]. -/
theorem c2_pages_counterexample :
    pages 1 20
      = [PageToken.page 1, PageToken.page 2, PageToken.page 3, PageToken.page 4,
         PageToken.page 5, PageToken.page 6, PageToken.page 7, PageToken.page 8,
         PageToken.page 9, PageToken.ellipsis, PageToken.page 20]
    ∧ pages 1 20
      ≠ [PageToken.page 1, PageToken.page 2, PageToken.page 3, PageToken.page 4,
         PageToken.page 5, PageToken.ellipsis, PageToken.page 20] := by
  constructor
  · decide
  · decide

/-- C2 (amended): pages returns [] when total_pages = 0, the full list 1..5
when total_pages = 5, the 9-wide leading window [1..9, ellipsis, 20] for
currentPage = 1 with totalPages = 20, and the 9-wide trailing window
[1, ellipsis, 12..20] for currentPage = 20 with totalPages = 20. -/
theorem c2_pages_amended :
    (∀ pn : Int, pages pn 0 = [])
    ∧ (∀ pn : Int, pages pn 5
        = [PageToken.page 1, PageToken.page 2, PageToken.page 3, PageToken.page 4,
           PageToken.page 5])
    ∧ pages 1 20
      = [PageToken.page 1, PageToken.page 2, PageToken.page 3, PageToken.page 4,
         PageToken.page 5, PageToken.page 6, PageToken.page 7, PageToken.page 8,
         PageToken.page 9, PageToken.ellipsis, PageToken.page 20]
    ∧ pages 20 20
      = [PageToken.page 1, PageToken.ellipsis, PageToken.page 12, PageToken.page 13,
         PageToken.page 14, PageToken.page 15, PageToken.page 16, PageToken.page 17,
         PageToken.page 18, PageToken.page 19, PageToken.page 20] := by
  refine ⟨?_, ?_, by decide, by decide⟩
  · intro pn
    rw [pages]
    norm_num
  · intro pn
    rw [pages]
    norm_num
    decide

/-- C7: the claim that empty arrays are omitted is wrong — in JavaScript an
empty array is truthy, so serializeParams keeps it: a lone key "a" with value
[] serializes to "a=%5B%5D" rather than being dropped, diverging from the
claimed falsy-omission rule (serializeParamsClaim, which treats empty
containers as falsy). -/
theorem c7_serialize_counterexample :
    serializeParams [(("a" : String), JVal.jarr JArr.nil)] = ("a=%5B%5D" : String).data
    ∧ serializeParamsClaim [(("a" : String), JVal.jarr JArr.nil)] = []
    ∧ serializeParams [(("a" : String), JVal.jarr JArr.nil)]
      ≠ serializeParamsClaim [(("a" : String), JVal.jarr JArr.nil)] := by
  refine ⟨by decide, by decide, by decide⟩

/-- C7 (amended): serializeParams omits exactly the keys whose values are
JavaScript-falsy — null, false, numeric 0, the empty string — while arrays and
objects (empty ones included) are truthy and kept; each remaining key is
emitted as urlEncode(key) ++ "=" ++ urlEncode(JSONEncode(value)) joined by
"&" (serializeParamsSpec). -/
theorem c7_serialize_amended (params : List (String × JVal)) :
    serializeParams params = serializeParamsSpec params := by
  have h : (fun kv : String × JVal => jsTruthy kv.2)
      = (fun kv : String × JVal => !jsFalsy kv.2) := by
    funext kv
    cases kv.2 <;> simp [jsTruthy, jsFalsy, bne]
  rw [serializeParams, serializeParamsSpec, h]

end RL

namespace RL

/- Projections of a query_params result used to state C8 without existentials:
   the orderby and meta_key of the request when the derivation succeeds. -/
def qpOrderby (r : Except String (ReqParams × Params)) : Option String :=
  match r with
  | .ok q => some q.1.orderby
  | .error _ => none

def qpMetaKey (r : Except String (ReqParams × Params)) : Option (Option String) :=
  match r with
  | .ok q => some q.1.meta_key
  | .error _ => none

def exceptOk {e a : Type} : Except e a → Bool
  | .ok _ => true
  | .error _ => false

def fsErrEx : FetchState :=
  { wp_data := JVal.jnull, pagination_total := some 0, pagination_total_pages := some 0,
    error := some (FetchErr.network ("boom")), loading := false, is_initial_load := false }

/-- C5: the claim that a successful fetch clears any prior recorded error is
wrong — no branch of __fetchData ever writes null into this.error, so a stale
error survives a later successful fetch: starting from a state holding a
recorded network error, a success outcome leaves this.error unchanged and
non-null. -/
theorem c5_fetch_counterexample :
    (fetchData [] pDateEx fsErrEx (FetchOutcome.success JVal.jnull none none)).1.error
      = some (FetchErr.network ("boom"))
    ∧ (fetchData [] pDateEx fsErrEx (FetchOutcome.success JVal.jnull none none)).1.error
      ≠ none := by
  constructor
  · decide
  · decide

/-- C5 (amended): when query_params succeeds, a successful fetch replaces
wp_data, sets the two pagination fields from the parsed x-wp-total and
x-wp-totalpages headers, clears loading and the initial-load flag, and leaves
the previously recorded error in place (it is never cleared); a network or
JSON failure records its error and clears loading, leaving wp_data and the
pagination fields untouched; and when query_params throws, the validation
error is recorded, everything else is untouched, and params is returned
unchanged. -/
theorem c5_fetch_amended :
    (∀ mf p fs body hT hTP, exceptOk (query_params mf p) = true →
      (fetchData mf p fs (FetchOutcome.success body hT hTP)).1
        = { fs with
            wp_data := body,
            pagination_total := parseIntHeader hT,
            pagination_total_pages := parseIntHeader hTP,
            loading := false,
            is_initial_load := false })
    ∧ (∀ mf p fs m, exceptOk (query_params mf p) = true →
      (fetchData mf p fs (FetchOutcome.networkError m)).1
        = { fs with error := some (FetchErr.network m), loading := false })
    ∧ (∀ mf p fs m, exceptOk (query_params mf p) = true →
      (fetchData mf p fs (FetchOutcome.jsonError m)).1
        = { fs with error := some (FetchErr.nonJson m), loading := false })
    ∧ (∀ mf p fs out e, query_params mf p = .error e →
      (fetchData mf p fs out).1
        = { fs with error := some (FetchErr.validation e), loading := false }
      ∧ (fetchData mf p fs out).2 = p) := by
  refine ⟨?_, ?_, ?_, ?_⟩
  · intro mf p fs body hT hTP h
    cases hq : query_params mf p with
    | error e => rw [hq] at h; exact absurd h (by simp [exceptOk])
    | ok q => simp only [fetchData, hq]
  · intro mf p fs m h
    cases hq : query_params mf p with
    | error e => rw [hq] at h; exact absurd h (by simp [exceptOk])
    | ok q => simp only [fetchData, hq]
  · intro mf p fs m h
    cases hq : query_params mf p with
    | error e => rw [hq] at h; exact absurd h (by simp [exceptOk])
    | ok q => simp only [fetchData, hq]
  · intro mf p fs out e hq
    exact ⟨by simp only [fetchData, hq], by simp only [fetchData, hq]⟩

theorem c5_fetch_amended_witness :
    (fetchData [] pDateEx fsErrEx
        (FetchOutcome.success (JVal.jnum 7) (some ("12")) (some ("2")))).1
      = { fsErrEx with
          wp_data := JVal.jnum 7,
          pagination_total := parseIntHeader (some ("12")),
          pagination_total_pages := parseIntHeader (some ("2")),
          loading := false,
          is_initial_load := false } :=
  c5_fetch_amended.1 [] pDateEx fsErrEx (JVal.jnum 7) (some ("12")) (some ("2"))
    (by decide)

def reqMqEx : ReqParams :=
  { per_page := 10, search := "", order := "desc", orderby := "date",
    pagenum := none, page := some 1, meta_key := none,
    meta_query := [(("price" : String), MQVal.filt ("price") ("5")),
      (("relation" : String), MQVal.rel ("AND"))],
    ver := 1, taxonomies := [(("tags" : String), [3])] }

/-- C6: the claim that query_params is side-effect free is wrong — it copies
this.params with a shallow extend, so writing relation = 'AND' into the
copy's meta_query writes through to this.params: on a params state whose
meta_query holds one filter and no relation key, evaluating query_params
hands back a params object whose meta_query gained the relation entry,
different from the input. -/
theorem c6_query_params_counterexample :
    query_params [] pMqEx = Except.ok (reqMqEx, { pMqEx with meta_query := reqMqEx.meta_query })
    ∧ { pMqEx with meta_query := reqMqEx.meta_query } ≠ pMqEx := by
  constructor
  · rfl
  · decide

/-- C6 (amended): query_params leaves every field of this.params unchanged
except meta_query: when meta_query is empty, params is returned exactly as it
was; when it is non-empty, the only change is that relation = 'AND' has been
written into the shared meta_query object. -/
theorem c6_query_params_amended (mf : List (String × String)) (p : Params)
    (q : ReqParams × Params) (h : query_params mf p = .ok q) :
    q.2.per_page = p.per_page ∧ q.2.search = p.search ∧ q.2.order = p.order
    ∧ q.2.orderby = p.orderby ∧ q.2.pagenum = p.pagenum ∧ q.2.ver = p.ver
    ∧ q.2.taxonomies = p.taxonomies
    ∧ (p.meta_query = [] → q.2 = p)
    ∧ (p.meta_query ≠ [] →
        q.2.meta_query = setKey p.meta_query ("relation") (MQVal.rel ("AND"))) := by
  have hs := query_params_ok_snd h
  unfold mqUpdate at hs
  by_cases hmq : p.meta_query = []
  · rw [if_pos hmq] at hs
    rw [hs]
    exact ⟨rfl, rfl, rfl, rfl, rfl, rfl, rfl, fun _ => rfl, fun hn => absurd hmq hn⟩
  · rw [if_neg hmq] at hs
    rw [hs]
    exact ⟨rfl, rfl, rfl, rfl, rfl, rfl, rfl, fun he => absurd he hmq, fun _ => rfl⟩

def reqDateEx : ReqParams :=
  { per_page := 10, search := "", order := "desc", orderby := "date",
    pagenum := none, page := some 1, meta_key := none, meta_query := [],
    ver := 1, taxonomies := [(("tags" : String), [3])] }

theorem c6_query_params_amended_witness :
    (reqDateEx, pDateEx).2.per_page = pDateEx.per_page
    ∧ (reqDateEx, pDateEx).2.search = pDateEx.search
    ∧ (reqDateEx, pDateEx).2.order = pDateEx.order
    ∧ (reqDateEx, pDateEx).2.orderby = pDateEx.orderby
    ∧ (reqDateEx, pDateEx).2.pagenum = pDateEx.pagenum
    ∧ (reqDateEx, pDateEx).2.ver = pDateEx.ver
    ∧ (reqDateEx, pDateEx).2.taxonomies = pDateEx.taxonomies
    ∧ (pDateEx.meta_query = [] → (reqDateEx, pDateEx).2 = pDateEx)
    ∧ (pDateEx.meta_query ≠ [] →
        (reqDateEx, pDateEx).2.meta_query
          = setKey pDateEx.meta_query ("relation") (MQVal.rel ("AND"))) :=
  c6_query_params_amended [] pDateEx (reqDateEx, pDateEx) rfl

def mfBogusEx : List (String × String) := [(("bogus" : String), (""))]

def pBogusEx : Params := { pDateEx with orderby := ("bogus") }

/-- C8: the claim that naming any configured meta field other than a "number"
one yields orderby = "meta_value" is wrong for a configured field whose type
is the empty string — the truthiness check skips it and the derivation falls
through to validation: with meta-field map { bogus: "" } and orderby "bogus",
the field is configured (the lookup finds it) yet query_params throws the
validation error. -/
theorem c8_orderby_counterexample :
    lookup mfBogusEx (pBogusEx.orderby) = some ("")
    ∧ query_params mfBogusEx pBogusEx
      = Except.error ("Orderby must be one of: author, date, id, include, modified, parent, relevance, slug, title, or a postmeta field") := by
  constructor
  · rfl
  · rfl

/-- C8 (amended): if orderby names a configured meta field of type "number",
the request has orderby = "meta_value_num" and meta_key = the original
orderby; if it names a configured meta field whose type is truthy (non-empty)
and not "number", the request has orderby = "meta_value" and meta_key
likewise; and if its meta-field lookup is falsy (absent or typed "") and it
is not in the fixed valid set, the derivation fails with the validation
error. -/
theorem c8_orderby_amended :
    (∀ mf (p : Params), lookup mf p.orderby = some ("number") →
      qpOrderby (query_params mf p) = some ("meta_value_num")
      ∧ qpMetaKey (query_params mf p) = some (some p.orderby))
    ∧ (∀ mf (p : Params) t, lookup mf p.orderby = some t → t ≠ "number" → t ≠ "" →
      qpOrderby (query_params mf p) = some ("meta_value")
      ∧ qpMetaKey (query_params mf p) = some (some p.orderby))
    ∧ (∀ mf (p : Params), mfTruthy (lookup mf p.orderby) = false →
        valid_orderbys.contains p.orderby = false →
        query_params mf p = .error ("Orderby must be one of: "
          ++ String.intercalate (", ") valid_orderbys ++ ", or a postmeta field")) := by
  refine ⟨?_, ?_, ?_⟩
  · intro mf p h
    by_cases h4 : p.pagenum = 0 <;> by_cases h5 : p.meta_query = [] <;>
      simp_all [query_params, qpOrderby, qpMetaKey]
  · intro mf p t h hn1 hn2
    by_cases h4 : p.pagenum = 0 <;> by_cases h5 : p.meta_query = [] <;>
      simp_all [query_params, qpOrderby, qpMetaKey, mfTruthy]
  · intro mf p h1 h3
    have hn : lookup mf p.orderby ≠ some ("number") := by
      intro hx
      rw [hx] at h1
      exact absurd h1 (by simp [mfTruthy])
    have h3m : p.orderby ∉ valid_orderbys := by
      intro hm
      have hc : valid_orderbys.contains p.orderby = true := List.elem_eq_true_of_mem hm
      rw [h3] at hc
      exact Bool.noConfusion hc
    simp [query_params, hn, h1, h3m]

def mfPriceEx : List (String × String) := [(("price" : String), ("number"))]

def pPriceEx : Params := { pDateEx with orderby := ("price") }

theorem c8_orderby_amended_witness :
    qpOrderby (query_params mfPriceEx pPriceEx) = some ("meta_value_num")
    ∧ qpMetaKey (query_params mfPriceEx pPriceEx) = some (some pPriceEx.orderby) :=
  c8_orderby_amended.1 mfPriceEx pPriceEx rfl

end RL

namespace RL

/-- C3: the pagenum ≥ 1 invariant fails as stated over all mutation sequences
— selectPage writes its argument unvalidated, so selectPage 0 drives pagenum
to 0 and the ensuing reaction keeps it there (the page-updated flag is set,
so no reset to 1 happens). -/
theorem c3_pagenum_counterexample :
    (run cfgEx (resetParams cfgEx) [Ev.pub (Op.selectPage 0)]).params.pagenum = 0
    ∧ ¬ 1 ≤ (run cfgEx (resetParams cfgEx) [Ev.pub (Op.selectPage 0)]).params.pagenum := by
  constructor
  · decide
  · decide

/-- C3 (amended): when the initial page and every selected page and restored
snapshot page are at least 1, pagenum stays at least 1 across every event
sequence; selectPage pg leaves pagenum equal to pg (the flag it sets before
mutating survives into the reaction, so no reset applies); a reaction with
the page-updated flag clear forces pagenum to 1 while one with it set keeps
pagenum; and changing search or a declared taxonomy's selection with the flag
clear forces pagenum back to 1 on the reaction it triggers. -/
theorem c3_pagenum_amended :
    (∀ (cfg : Config) (p0 : Params) (es : List Ev), 1 ≤ cfg.initial_page → 1 ≤ p0.pagenum →
      (∀ e ∈ es, (match e with
        | .pub (.selectPage pg) => 1 ≤ pg
        | .pub _ => True
        | .pop (some snap) => 1 ≤ snap.pagenum
        | .pop none => True : Prop)) →
      1 ≤ (run cfg p0 es).params.pagenum)
    ∧ (∀ (cfg : Config) (s : MState) (pg : Int),
        (evStep cfg s (Ev.pub (Op.selectPage pg))).params.pagenum = pg)
    ∧ (∀ (cfg : Config) (s : MState), s.page_updated = false → (react cfg s).params.pagenum = 1)
    ∧ (∀ (cfg : Config) (s : MState), s.page_updated = true →
        (react cfg s).params.pagenum = s.params.pagenum)
    ∧ (∀ (cfg : Config) (s : MState) (x : String), s.page_updated = false → x ≠ s.params.search →
        (evStep cfg s (Ev.pub (Op.setSearch x))).params.pagenum = 1)
    ∧ (∀ (cfg : Config) (s : MState) (tax : String) (ts : List Int) (cur : List Int),
        s.page_updated = false → lookup s.params.taxonomies tax = some cur →
        (evStep cfg s (Ev.pub (Op.setTerms tax ts))).params.pagenum = 1) := by
  refine ⟨run_pagenum_ge, ?_, react_pagenum_reset, react_pagenum_keep, ?_, ?_⟩
  · intro cfg s pg
    simp only [evStep, applyOp]
    by_cases hpg : pg = s.params.pagenum
    · rw [if_neg (by simp [hpg])]
    · rw [if_pos (by simp [hpg])]
      rw [react_pagenum_keep cfg _ (by simp)]
  · intro cfg s x h hx
    simp only [evStep, applyOp]
    rw [if_pos (by simp [hx])]
    rw [react_pagenum_reset cfg _ (by simp [h])]
  · intro cfg s tax ts cur h hl
    simp only [evStep, applyOp, hl]
    rw [if_pos (by simp)]
    rw [react_pagenum_reset cfg _ (by simp [h])]

theorem c3_pagenum_amended_witness :
    1 ≤ (run cfgEx (resetParams cfgEx) [Ev.pub (Op.setSearch ("x"))]).params.pagenum
    ∧ (evStep cfgEx (createdState cfgEx (resetParams cfgEx))
        (Ev.pub (Op.selectPage 3))).params.pagenum = 3 :=
  ⟨c3_pagenum_amended.1 cfgEx (resetParams cfgEx) [Ev.pub (Op.setSearch ("x"))]
      (by decide) (by decide)
      (by
        intro e he
        simp only [List.mem_singleton] at he
        subst he
        exact True.intro),
   c3_pagenum_amended.2.1 cfgEx (createdState cfgEx (resetParams cfgEx)) 3⟩

/-- C4: every reaction comes out with the suppression flag cleared; a
suppressed reaction pushes nothing and merely consumes the flag; an
unsuppressed reaction pushes exactly one entry built from the configured path
and the serialized current params; the initial mount's reaction is the
suppressed one (the state right after created has no entry and a cleared
flag); a pop navigation pushes nothing during its own suppressed restoring
reaction and comes out with the flag cleared; and after any run the flag is
clear, so the next parameter-change reaction will push. -/
theorem c4_history_suppression :
    (∀ (cfg : Config) (s : MState), (react cfg s).suppress_history = false)
    ∧ (∀ (cfg : Config) (s : MState), s.suppress_history = true → (react cfg s).history = s.history)
    ∧ (∀ (cfg : Config) (s : MState), s.suppress_history = false →
        (react cfg s).history
          = { url := cfg.path.data ++ '?' :: serializeParams (paramsToJObj (react cfg s).params),
              state := (react cfg s).params } :: s.history)
    ∧ (∀ (cfg : Config) (p0 : Params), (createdState cfg p0).suppress_history = false
        ∧ (createdState cfg p0).history = [])
    ∧ (∀ (cfg : Config) (s : MState) (snap : Option Params),
        (evStep cfg s (Ev.pop snap)).history = s.history
        ∧ (evStep cfg s (Ev.pop snap)).suppress_history = false)
    ∧ (∀ (cfg : Config) (p0 : Params) (es : List Ev), (run cfg p0 es).suppress_history = false) := by
  refine ⟨react_suppress, react_history_suppressed, react_history_push, ?_, ?_, run_suppress⟩
  · intro cfg p0
    exact ⟨react_suppress cfg _, react_history_suppressed cfg _ rfl⟩
  · intro cfg s snap
    cases snap with
    | some ps => exact ⟨react_history_suppressed cfg _ rfl, react_suppress cfg _⟩
    | none => exact ⟨react_history_suppressed cfg _ rfl, react_suppress cfg _⟩

def sSupEx : MState :=
  { params := resetParams cfgEx, page_updated := true, suppress_history := true,
    history := [] }

theorem c4_history_suppression_witness :
    (react cfgEx sSupEx).history = sSupEx.history
    ∧ (createdState cfgEx (resetParams cfgEx)).suppress_history = false
    ∧ (createdState cfgEx (resetParams cfgEx)).history = [] :=
  ⟨c4_history_suppression.2.1 cfgEx sSupEx rfl,
   (c4_history_suppression.2.2.2.1 cfgEx (resetParams cfgEx)).1,
   (c4_history_suppression.2.2.2.1 cfgEx (resetParams cfgEx)).2⟩

/-- C9: the no-snapshot branch does not restore the configured initial page —
the reset assignment triggers the watcher with the page-updated flag clear,
which forces pagenum to 1 on top of the initial values: with initial_page =
2, a pop without snapshot ends with pagenum 1, not the configured 2. -/
theorem c9_pop_counterexample :
    (evStep cfgPage2 (createdState cfgPage2 (resetParams cfgPage2))
        (Ev.pop none)).params.pagenum = 1
    ∧ (resetParams cfgPage2).pagenum = 2
    ∧ (evStep cfgPage2 (createdState cfgPage2 (resetParams cfgPage2))
        (Ev.pop none)).params
      ≠ resetParams cfgPage2 := by
  refine ⟨by decide, by decide, by decide⟩

/-- C9 (amended): a pop carrying a snapshot that is stable under the
query-evaluation effect (every snapshot the machine itself pushed is — second
conjunct) restores params to exactly that snapshot with no page reset.  A pop
without a snapshot resets to the configured initial values, but what the
ensuing reaction does to pagenum depends on the leftover page-updated flag:
with the flag clear, pagenum is forced to 1 and every other field keeps its
initial value — exactly the initial params with pagenum 1 when the configured
initial meta_query is empty; with the flag still set (a selectPage call at
the current page sets it without triggering a reaction to consume it), no
reset applies and pagenum stays at the configured initial page — exactly the
initial params when the configured initial meta_query is empty.  In either
regime a non-empty initial meta_query additionally gains relation = AND
during the reaction. -/
theorem c9_pop_amended :
    (∀ (cfg : Config) (s : MState) (snap : Params), fetchParamsEffect cfg snap = snap →
      (evStep cfg s (Ev.pop (some snap))).params = snap)
    ∧ (∀ (cfg : Config) (p0 : Params) (es : List Ev), histInv cfg (run cfg p0 es))
    ∧ (∀ (cfg : Config) (s : MState), s.page_updated = false →
        ((evStep cfg s (Ev.pop none)).params.pagenum = 1
         ∧ (evStep cfg s (Ev.pop none)).params.search = (resetParams cfg).search
         ∧ (evStep cfg s (Ev.pop none)).params.order = (resetParams cfg).order
         ∧ (evStep cfg s (Ev.pop none)).params.orderby = (resetParams cfg).orderby
         ∧ (evStep cfg s (Ev.pop none)).params.per_page = (resetParams cfg).per_page
         ∧ (evStep cfg s (Ev.pop none)).params.ver = (resetParams cfg).ver
         ∧ (evStep cfg s (Ev.pop none)).params.taxonomies = (resetParams cfg).taxonomies
         ∧ (cfg.initial_meta_query = [] →
             (evStep cfg s (Ev.pop none)).params
               = { resetParams cfg with pagenum := 1 })))
    ∧ (∀ (cfg : Config) (s : MState), s.page_updated = true →
        ((evStep cfg s (Ev.pop none)).params = fetchParamsEffect cfg (resetParams cfg)
         ∧ (evStep cfg s (Ev.pop none)).params.pagenum = cfg.initial_page
         ∧ (cfg.initial_meta_query = [] →
             (evStep cfg s (Ev.pop none)).params = resetParams cfg))) := by
  refine ⟨?_, run_histInv, ?_, ?_⟩
  · intro cfg s snap hfix
    show fetchParamsEffect cfg snap = snap
    exact hfix
  · intro cfg s h
    have h1 : (evStep cfg s (Ev.pop none)).params
        = fetchParamsEffect cfg { resetParams cfg with pagenum := 1 } := by
      show (react cfg { s with suppress_history := true, params := resetParams cfg }).params = _
      simp only [react]
      have hpu : ({ s with suppress_history := true, params := resetParams cfg }
          : MState).page_updated = false := h
      rw [if_pos hpu]
    have hf := fetchParamsEffect_fields cfg { resetParams cfg with pagenum := 1 }
    have hpn := fetchParamsEffect_pagenum cfg { resetParams cfg with pagenum := 1 }
    rw [h1]
    refine ⟨hpn, hf.2.1, hf.2.2.1, hf.2.2.2.1, hf.1, hf.2.2.2.2.2.1, hf.2.2.2.2.2.2, ?_⟩
    intro hmq
    apply fetchParamsEffect_empty_mq
    show (resetParams cfg).meta_query = []
    exact hmq
  · intro cfg s h
    have h1 : (evStep cfg s (Ev.pop none)).params
        = fetchParamsEffect cfg (resetParams cfg) := by
      show (react cfg { s with suppress_history := true, params := resetParams cfg }).params = _
      simp only [react]
      rw [if_neg (by simp [h])]
    refine ⟨h1, ?_, ?_⟩
    · rw [h1, fetchParamsEffect_pagenum]
      rfl
    · intro hmq
      rw [h1]
      apply fetchParamsEffect_empty_mq
      show (resetParams cfg).meta_query = []
      exact hmq

def sFlagEx : MState :=
  { params := resetParams cfgPage2, page_updated := true, suppress_history := false,
    history := [] }

theorem c9_pop_amended_witness :
    (evStep cfgEx (createdState cfgEx (resetParams cfgEx))
        (Ev.pop (some (resetParams cfgEx)))).params = resetParams cfgEx
    ∧ (evStep cfgPage2 sFlagEx (Ev.pop none)).params = resetParams cfgPage2 :=
  ⟨c9_pop_amended.1 cfgEx (createdState cfgEx (resetParams cfgEx)) (resetParams cfgEx)
     (by decide),
   (c9_pop_amended.2.2.2 cfgPage2 sFlagEx rfl).2.2 rfl⟩

end RL
